import Mathlib

/-!
Formal model of the ssm-session-client core: the `AgentMessage` binary codec
(`agent_message.go`), the bounded message buffer (`message_buffer.go`) and the
data-channel state machine (`data_channel.go`).  Machine integers are modelled
as `Nat`/`Int` with explicit `% 2^w` where Go truncates; byte strings are
`List Nat`; fallible Go methods return `Except`/`Option` values; Go runtime
panics (slice out of range, close of a closed channel) are explicit error
values.  The WebSocket is modelled as a trace of transmitted frames carried in
the channel state; external collaborators (the `encoding/json` codecs for the
handshake and channel-closed payloads) are passed in as function parameters.
-/

set_option maxHeartbeats 1000000
set_option maxRecDepth 100000

namespace Ssm

/-! ## Bytes and big-endian words -/

/-- UTF-8 bytes of an ASCII string literal (all source labels are ASCII). -/
def strBytes (s : String) : List Nat :=
  s.toList.map Char.toNat

/-- Big-endian value of a byte list (most significant first). -/
def beVal (l : List Nat) : Nat :=
  l.foldl (fun a b => a * 256 + b) 0

/-- Big-endian 4-byte encoding of a `uint32` value (Go `binary.BigEndian.PutUint32`);
the per-byte `% 256` performs the truncation Go's `uint32` conversion would. -/
def be32 (n : Nat) : List Nat :=
  [n / 16777216 % 256, n / 65536 % 256, n / 256 % 256, n % 256]

/-- Big-endian 8-byte encoding of a `uint64` value. -/
def be64 (n : Nat) : List Nat :=
  [n / 72057594037927936 % 256, n / 281474976710656 % 256, n / 1099511627776 % 256,
   n / 4294967296 % 256, n / 16777216 % 256, n / 65536 % 256, n / 256 % 256, n % 256]

/-- Go `binary.BigEndian.Uint32(data[off:])`. -/
def readU32 (data : List Nat) (off : Nat) : Nat :=
  beVal ((data.drop off).take 4)

/-- Go `binary.BigEndian.Uint64(data[off:])`. -/
def readU64 (data : List Nat) (off : Nat) : Nat :=
  beVal ((data.drop off).take 8)

/-- Two's-complement reading of a `uint64` bit pattern as Go `int64(x)`. -/
def toInt64 (n : Nat) : Int :=
  if n % 18446744073709551616 < 9223372036854775808 then
    ((n % 18446744073709551616 : Nat) : Int)
  else
    ((n % 18446744073709551616 : Nat) : Int) - 18446744073709551616

/-- Two's-complement `uint64` bit pattern of a Go `int64` value. -/
def toU64 (i : Int) : Nat :=
  (i % 18446744073709551616).toNat

/-! ## SHA-256 (`crypto/sha256`), executable over byte lists -/

/-- Truncation to a 32-bit word. -/
def u32 (n : Nat) : Nat := n % 4294967296

/-- Rotate a 32-bit word right by `k`. -/
def rotr32 (k x : Nat) : Nat := u32 ((x >>> k) ||| (x <<< (32 - k)))

/-- SHA-256 `Ch` function. -/
def shaCh (x y z : Nat) : Nat := ((x &&& y) ^^^ ((4294967295 ^^^ x) &&& z))

/-- SHA-256 `Maj` function. -/
def shaMaj (x y z : Nat) : Nat := ((x &&& y) ^^^ (x &&& z) ^^^ (y &&& z))

/-- SHA-256 big sigma 0. -/
def bSig0 (x : Nat) : Nat := rotr32 2 x ^^^ rotr32 13 x ^^^ rotr32 22 x

/-- SHA-256 big sigma 1. -/
def bSig1 (x : Nat) : Nat := rotr32 6 x ^^^ rotr32 11 x ^^^ rotr32 25 x

/-- SHA-256 small sigma 0. -/
def sSig0 (x : Nat) : Nat := rotr32 7 x ^^^ rotr32 18 x ^^^ (x >>> 3)

/-- SHA-256 small sigma 1. -/
def sSig1 (x : Nat) : Nat := rotr32 17 x ^^^ rotr32 19 x ^^^ (x >>> 10)

/-- The 64 SHA-256 round constants. -/
def shaK : List Nat :=
  [1116352408, 1899447441, 3049323471, 3921009573, 961987163, 1508970993, 2453635748, 2870763221,
   3624381080, 310598401, 607225278, 1426881987, 1925078388, 2162078206, 2614888103, 3248222580,
   3835390401, 4022224774, 264347078, 604807628, 770255983, 1249150122, 1555081692, 1996064986,
   2554220882, 2821834349, 2952996808, 3210313671, 3336571891, 3584528711, 113926993, 338241895,
   666307205, 773529912, 1294757372, 1396182291, 1695183700, 1986661051, 2177026350, 2456956037,
   2730485921, 2820302411, 3259730800, 3345764771, 3516065817, 3600352804, 4094571909, 275423344,
   430227734, 506948616, 659060556, 883997877, 958139571, 1322822218, 1537002063, 1747873779,
   1955562222, 2024104815, 2227730452, 2361852424, 2428436474, 2756734187, 3204031479, 3329325298]

/-- Working state of the SHA-256 compression function (eight 32-bit words). -/
structure ShaState where
  a : Nat
  b : Nat
  c : Nat
  d : Nat
  e : Nat
  f : Nat
  g : Nat
  h : Nat
deriving DecidableEq

/-- SHA-256 initial hash value. -/
def shaInit : ShaState :=
  ⟨1779033703, 3144134277, 1013904242, 2773480762, 1359893119, 2600822924, 528734635, 1541459225⟩

/-- Group bytes into big-endian 32-bit words. -/
def bytesToWords : List Nat → List Nat
  | a :: b :: c :: d :: rest => (((a * 256 + b) * 256 + c) * 256 + d) :: bytesToWords rest
  | _ => []

/-- One extension step of the SHA-256 message schedule: append word `w[t]` from
`w[t-2], w[t-7], w[t-15], w[t-16]`. -/
def shaExtendStep (w : List Nat) : List Nat :=
  w ++ [u32 (sSig1 (w.getD (w.length - 2) 0) + w.getD (w.length - 7) 0 +
             sSig0 (w.getD (w.length - 15) 0) + w.getD (w.length - 16) 0)]

/-- Full 64-word SHA-256 message schedule from the 16 block words. -/
def shaSchedule (w : List Nat) : List Nat :=
  (List.range 48).foldl (fun acc _ => shaExtendStep acc) w

/-- One SHA-256 round, consuming a (round constant, schedule word) pair. -/
def shaRound (s : ShaState) (kw : Nat × Nat) : ShaState :=
  let t1 := u32 (s.h + bSig1 s.e + shaCh s.e s.f s.g + kw.1 + kw.2)
  let t2 := u32 (bSig0 s.a + shaMaj s.a s.b s.c)
  ⟨u32 (t1 + t2), s.a, s.b, s.c, u32 (s.d + t1), s.e, s.f, s.g⟩

/-- SHA-256 compression of a single 64-byte block into the running state. -/
def shaBlock (s : ShaState) (block : List Nat) : ShaState :=
  let w := shaSchedule (bytesToWords block)
  let t := (shaK.zip w).foldl shaRound s
  ⟨u32 (s.a + t.a), u32 (s.b + t.b), u32 (s.c + t.c), u32 (s.d + t.d),
   u32 (s.e + t.e), u32 (s.f + t.f), u32 (s.g + t.g), u32 (s.h + t.h)⟩

/-- Split a byte list into 64-byte chunks; the fuel argument (instantiated with
the list length, an upper bound on the number of chunks) makes the recursion
structural so that the function reduces inside the kernel. -/
def chunksGo : Nat → List Nat → List (List Nat)
  | 0, _ => []
  | _, [] => []
  | fuel + 1, a :: rest => (a :: rest.take 63) :: chunksGo fuel (rest.drop 63)

/-- Split a byte list into 64-byte chunks. -/
def chunks64 (l : List Nat) : List (List Nat) :=
  chunksGo l.length l

/-- SHA-256 padding: a `0x80` byte, zeros to 56 mod 64, and the bit length as
a big-endian 64-bit integer. -/
def sha256Pad (msg : List Nat) : List Nat :=
  msg ++ 128 :: List.replicate ((119 - msg.length % 64) % 64) 0 ++ be64 (msg.length * 8)

/-- SHA-256 digest of a byte list, as 32 bytes. -/
def sha256 (msg : List Nat) : List Nat :=
  let s := (chunks64 (sha256Pad msg)).foldl shaBlock shaInit
  be32 s.a ++ be32 s.b ++ be32 s.c ++ be32 s.d ++ be32 s.e ++ be32 s.f ++ be32 s.g ++ be32 s.h

/-- Sanity check against the FIPS 180-2 test vector for the empty message. -/
theorem sha256_empty_vector :
    sha256 [] = [227, 176, 196, 66, 152, 252, 28, 20, 154, 251, 244, 200,
                 153, 111, 185, 36, 39, 174, 65, 228, 100, 155, 147, 76,
                 164, 149, 153, 27, 120, 82, 184, 85] := by
  decide

/-- Sanity check against the FIPS 180-2 test vector for `"abc"`. -/
theorem sha256_abc_vector :
    sha256 (strBytes "abc") =
      [186, 120, 22, 191, 143, 1, 207, 234, 65, 65, 64, 222,
       93, 174, 34, 35, 176, 3, 97, 163, 150, 23, 122, 156,
       180, 16, 255, 97, 242, 0, 21, 173] := by
  decide

/-! ## Message type and enum constants (`types.go`) -/

/-- Wire label `acknowledge`. -/
def AcknowledgeT : List Nat := strBytes "acknowledge"

/-- Wire label `channel_closed`. -/
def ChannelClosedT : List Nat := strBytes "channel_closed"

/-- Wire label `output_stream_data`. -/
def OutputStreamDataT : List Nat := strBytes "output_stream_data"

/-- Wire label `input_stream_data`. -/
def InputStreamDataT : List Nat := strBytes "input_stream_data"

/-- Wire label `pause_publication`. -/
def PausePublicationT : List Nat := strBytes "pause_publication"

/-- Wire label `start_publication`. -/
def StartPublicationT : List Nat := strBytes "start_publication"

/-- `AgentMessageFlag` values: `Data=0, Syn=1, Fin=2, Ack=3`. -/
def FlagData : Nat := 0

/-- `Syn` flag. -/
def FlagSyn : Nat := 1

/-- `Fin` flag. -/
def FlagFin : Nat := 2

/-- `Ack` flag. -/
def FlagAck : Nat := 3

/-- `PayloadType` `Undefined = 0`. -/
def PTUndefined : Nat := 0

/-- `PayloadType` `Output = 1`. -/
def PTOutput : Nat := 1

/-- `PayloadType` `Size = 3`. -/
def PTSize : Nat := 3

/-- `PayloadType` `HandshakeRequest = 5`. -/
def PTHandshakeRequest : Nat := 5

/-- `PayloadType` `HandshakeResponse = 6`. -/
def PTHandshakeResponse : Nat := 6

/-- `PayloadType` `HandshakeComplete = 7`. -/
def PTHandshakeComplete : Nat := 7

/-- `PayloadType` `Flag = 10`. -/
def PTFlag : Nat := 10

/-! ## AgentMessage (`agent_message.go`) -/

/-- The `AgentMessage` struct.  `createdDate` models the Go `time.Time`: `none`
is the zero `time.Time` (for which `IsZero()` is true); `some ns` is a non-zero
time holding `ns` nanoseconds since the Unix epoch (`parseTime`, built from
`time.Unix`, never produces the zero time, because the zero `time.Time` is
year 1, not the epoch). -/
structure AgentMessage where
  headerLength : Nat
  MessageType : List Nat
  schemaVersion : Nat
  createdDate : Option Int
  SequenceNumber : Int
  Flags : Nat
  messageID : List Nat
  payloadDigest : List Nat
  PayloadType : Nat
  payloadLength : Nat
  Payload : List Nat
deriving DecidableEq, Inhabited

/-- Errors returned by `ValidateMessage`/`UnmarshalBinary`, one constructor per
`return` statement; `outOfRange` stands for the Go runtime panic raised by an
out-of-bounds slice expression in `UnmarshalBinary`. -/
inductive UnmarshalError where
  | outOfRange
  | invalidHeaderLen
  | invalidSchema
  | invalidMsgType
  | invalidDate
  | invalidMsgId
  | lengthMismatch
  | digestMismatch
deriving DecidableEq, Inhabited

/-- The ASCII whitespace table of `bytes.TrimSpace`'s fast path
(`asciiSpace`): tab, LF, VT, FF, CR, space. -/
def wsByte (b : Nat) : Bool :=
  b == 9 || b == 10 || b == 11 || b == 12 || b == 13 || b == 32

/-- Drop bytes satisfying `p` from the right end of a list (the single-byte
fast path of `bytes.TrimRight`). -/
def trimRightP (p : Nat → Bool) (l : List Nat) : List Nat :=
  (l.reverse.dropWhile p).reverse

/-- Go `unicode.IsSpace` on a rune value: the Unicode `White_Space`
property. -/
def isSpaceRune (r : Nat) : Bool :=
  r == 9 || r == 10 || r == 11 || r == 12 || r == 13 || r == 32 ||
  r == 133 || r == 160 || r == 5760 ||
  (decide (8192 ≤ r) && decide (r ≤ 8202)) ||
  r == 8232 || r == 8233 || r == 8239 || r == 8287 || r == 12288

/-- Go `utf8.RuneStart`: not a continuation byte. -/
def runeStart (b : Nat) : Bool := !(b &&& 192 == 128)

/-- Go `utf8.DecodeRune`: the first rune of a byte string and its encoded
size; invalid, truncated, overlong and surrogate encodings yield
`(RuneError, 1)` and the empty string `(RuneError, 0)` (`RuneError` =
`0xFFFD` = 65533). -/
def decodeRuneGo : List Nat → Nat × Nat
  | [] => (65533, 0)
  | b0 :: rest =>
    if b0 < 128 then (b0, 1)
    else if b0 < 194 then (65533, 1)
    else if b0 < 224 then
      match rest with
      | b1 :: _ =>
        if decide (128 ≤ b1) && decide (b1 < 192) then
          ((b0 % 32) * 64 + b1 % 64, 2)
        else (65533, 1)
      | [] => (65533, 1)
    else if b0 < 240 then
      match rest with
      | b1 :: b2 :: _ =>
        let lo := if b0 == 224 then 160 else 128
        let hi := if b0 == 237 then 160 else 192
        if (decide (lo ≤ b1) && decide (b1 < hi)) &&
            (decide (128 ≤ b2) && decide (b2 < 192)) then
          ((b0 % 16) * 4096 + (b1 % 64) * 64 + b2 % 64, 3)
        else (65533, 1)
      | _ => (65533, 1)
    else if b0 < 245 then
      match rest with
      | b1 :: b2 :: b3 :: _ =>
        let lo := if b0 == 240 then 144 else 128
        let hi := if b0 == 244 then 144 else 192
        if (decide (lo ≤ b1) && decide (b1 < hi)) &&
            (decide (128 ≤ b2) && decide (b2 < 192)) &&
            (decide (128 ≤ b3) && decide (b3 < 192)) then
          ((b0 % 8) * 262144 + (b1 % 64) * 4096 + (b2 % 64) * 64 + b3 % 64, 4)
        else (65533, 1)
      | _ => (65533, 1)
    else (65533, 1)

/-- The backward scan of `utf8.DecodeLastRune`: the largest index in
`[lim, len-2]` holding a rune start, or `lim - 1` when none does (the loop
looks back at most `UTFMax` bytes, so at most three candidates). -/
def lastStartScan (p : List Nat) (len : Nat) (lim : Int) : Int :=
  if decide (lim ≤ (len : Int) - 2) && runeStart (p.getD (len - 2) 0) then (len : Int) - 2
  else if decide (lim ≤ (len : Int) - 3) && runeStart (p.getD (len - 3) 0) then (len : Int) - 3
  else if decide (lim ≤ (len : Int) - 4) && runeStart (p.getD (len - 4) 0) then (len : Int) - 4
  else lim - 1

/-- Go `utf8.DecodeLastRune`: the last rune of a byte string and its encoded
size, with the start-byte lookback clamped to `UTFMax` bytes and to the start
of the string, and the `start+size != end` rejection. -/
def decodeLastRuneGo (p : List Nat) : Nat × Nat :=
  if p.length = 0 then (65533, 0)
  else
    let len := p.length
    let last := p.getD (len - 1) 0
    if last < 128 then (last, 1)
    else
      let lim : Int := if (len : Int) - 4 < 0 then 0 else (len : Int) - 4
      let start : Int := lastStartScan p len lim
      let start : Int := if start < 0 then 0 else start
      let rs := decodeRuneGo (p.drop start.toNat)
      if start.toNat + rs.2 ≠ len then (65533, 1) else rs

/-- Go `bytes.TrimLeftFunc(s, unicode.IsSpace)`: drop leading runes that are
Unicode whitespace (fuel-structured; each step consumes at least one byte). -/
def trimLeftSpaceFuel : Nat → List Nat → List Nat
  | 0, s => s
  | fuel + 1, s =>
    match s with
    | [] => []
    | _ :: _ =>
      let rs := decodeRuneGo s
      if isSpaceRune rs.1 then trimLeftSpaceFuel fuel (s.drop rs.2) else s

/-- Go `bytes.TrimLeftFunc(s, unicode.IsSpace)`. -/
def trimLeftSpace (s : List Nat) : List Nat := trimLeftSpaceFuel s.length s

/-- Go `bytes.TrimRightFunc(s, unicode.IsSpace)`: drop trailing runes that
are Unicode whitespace. -/
def trimRightSpaceFuel : Nat → List Nat → List Nat
  | 0, s => s
  | fuel + 1, s =>
    match s with
    | [] => []
    | _ :: _ =>
      let rs := decodeLastRuneGo s
      if isSpaceRune rs.1 then trimRightSpaceFuel fuel (s.take (s.length - rs.2)) else s

/-- Go `bytes.TrimRightFunc(s, unicode.IsSpace)`. -/
def trimRightSpace (s : List Nat) : List Nat := trimRightSpaceFuel s.length s

/-- The right-to-left ASCII scan of `bytes.TrimSpace`, on the reversed
remainder: drop trailing ASCII whitespace, falling back to
`bytes.TrimFunc(s[start:stop], unicode.IsSpace)` at a non-ASCII byte. -/
def trimSpaceRightRev : List Nat → List Nat
  | [] => []
  | c :: rest =>
    if 128 ≤ c then (trimRightSpace (trimLeftSpace ((c :: rest).reverse))).reverse
    else if wsByte c then trimSpaceRightRev rest
    else c :: rest

/-- Go `bytes.TrimSpace`: trim ASCII whitespace from both ends on the fast
path, falling back to `bytes.TrimFunc(·, unicode.IsSpace)` the moment either
scan meets a non-ASCII byte. -/
def trimSpaceGo : List Nat → List Nat
  | [] => []
  | b :: rest =>
    if 128 ≤ b then trimRightSpace (trimLeftSpace (b :: rest))
    else if wsByte b then trimSpaceGo rest
    else (trimSpaceRightRev ((b :: rest).reverse)).reverse

/-- Go `parseMessageType`: `bytes.TrimSpace(bytes.TrimRight(data, "\x00"))` —
strip trailing NUL padding, then leading and trailing whitespace. -/
def parseMessageType (data : List Nat) : List Nat :=
  trimSpaceGo (trimRightP (fun b => b == 0) data)

/-- Go `convertMessageType`: right-pad the label with `0x20` to 32 bytes,
truncating an overlength label. -/
def AgentMessage.convertMessageType (m : AgentMessage) : List Nat :=
  if m.MessageType.length ≥ 32 then m.MessageType.take 32
  else (m.MessageType ++ List.replicate (32 - m.MessageType.length) 32).take 32

/-- Go `formatUUIDBytes`: `append(data[8:], data[:8]...)`, i.e. swap the two
8-byte halves.  (In Go the append also aliases the caller's backing array and
overwrites the 8 bytes that follow the UUID region of a decoded frame; that
only corrupts the *stored* digest bytes, which `ValidateMessage` immediately
overwrites with the recomputed digest, so the parse result is unaffected and
the swap is modelled purely.) -/
def formatUUIDBytes (data : List Nat) : List Nat :=
  data.drop 8 ++ data.take 8

/-- Go `parseTime`: `time.Unix(0, (time.Duration(ts) * time.Millisecond).Nanoseconds())`.
The millisecond-to-nanosecond multiply wraps at 64 bits (Go `int64` overflow);
`time.Unix` never yields the zero `time.Time`, hence `some`. -/
def parseTime (data : List Nat) : Option Int :=
  some (toInt64 (beVal (data.take 8) * 1000000))

/-- Milliseconds written by `MarshalBinary` for the `createdDate` field:
`time.Duration(m.createdDate.UnixNano()).Milliseconds()` (int64 division
truncating toward zero).  The `none` (zero time) case is unreachable after
validation and maps to 0. -/
def millisOf : Option Int → Int
  | none => 0
  | some ns => Int.tdiv ns 1000000

/-- Go `ValidateMessage`.  The digest branch mirrors the source statement
`!bytes.Equal(m.sha256PayloadDigest(), m.payloadDigest)`: the method call is
evaluated first (Go arguments evaluate left to right) and assigns
`m.payloadDigest` before the second operand is read, so both operands are the
freshly computed digest.  The validated (mutated) receiver is returned. -/
def AgentMessage.ValidateMessage (m : AgentMessage) : Except UnmarshalError AgentMessage :=
  if m.headerLength > 116 ∨ m.headerLength < 112 then .error .invalidHeaderLen
  else if m.schemaVersion < 1 then .error .invalidSchema
  else if m.MessageType.length < 10 then .error .invalidMsgType
  else if m.createdDate = none then .error .invalidDate
  else if m.messageID.length ≠ 16 then .error .invalidMsgId
  else if m.Payload.length ≠ m.payloadLength then .error .lengthMismatch
  else
    let computed := sha256 m.Payload
    let m' := { m with payloadDigest := computed }
    if computed ≠ m'.payloadDigest then .error .digestMismatch
    else .ok m'

/-- Go `UnmarshalBinary` on a fresh (zero-valued) receiver, as used by
`HandleMsg` (`m := new(AgentMessage)`).  The bounds guards reproduce exactly
the Go slice expressions that would panic: every successful decode performs
the same reads the Go code does. -/
def AgentMessage.UnmarshalBinary (data : List Nat) : Except UnmarshalError AgentMessage :=
  if data.length < 112 then .error .outOfRange
  else
    let hl := readU32 data 0
    let mt := parseMessageType ((data.drop 4).take 32)
    let sv := readU32 data 36
    let cd := parseTime (data.drop 40)
    let sq := toInt64 (readU64 data 48)
    let fl := readU64 data 56
    let mid := formatUUIDBytes ((data.drop 64).take 16)
    let dig := (data.drop 80).take 32
    if hl = 116 ∧ data.length < 116 then .error .outOfRange
    else
      let pt := if hl = 116 then readU32 data 112 else 0
      if data.length < hl + 4 then .error .outOfRange
      else
        let pl := readU32 data hl
        if data.length < hl + 4 + pl then .error .outOfRange
        else
          AgentMessage.ValidateMessage
            { headerLength := hl, MessageType := mt, schemaVersion := sv, createdDate := cd,
              SequenceNumber := sq, Flags := fl, messageID := mid, payloadDigest := dig,
              PayloadType := pt, payloadLength := pl, Payload := (data.drop (hl + 4)).take pl }

/-- The mutations `MarshalBinary` performs on its receiver before validating:
recompute the SHA-256 payload digest and set `payloadLength = uint32(len(Payload))`. -/
def AgentMessage.prepare (m : AgentMessage) : AgentMessage :=
  { m with payloadDigest := sha256 m.Payload,
           payloadLength := m.Payload.length % 4294967296 }

/-- The byte emission of `MarshalBinary` after successful validation: fields in
declared order, big-endian. -/
def AgentMessage.encodeBytes (m : AgentMessage) : List Nat :=
  be32 m.headerLength ++
    (m.convertMessageType ++
      (be32 m.schemaVersion ++
        (be64 (toU64 (millisOf m.createdDate)) ++
          (be64 (toU64 m.SequenceNumber) ++
            (be64 m.Flags ++
              (formatUUIDBytes m.messageID ++
                (m.payloadDigest.take 32 ++
                  (be32 m.PayloadType ++
                    (be32 m.payloadLength ++ m.Payload)))))))))

/-- Go `MarshalBinary`: recompute digest and length, validate, then emit. -/
def AgentMessage.MarshalBinary (m : AgentMessage) : Except UnmarshalError (List Nat) :=
  match m.prepare.ValidateMessage with
  | .error e => .error e
  | .ok m' => .ok m'.encodeBytes

/-- Hexadecimal digit byte (lowercase), as used by `uuid.String()`. -/
def hexDigit (n : Nat) : Nat :=
  if n < 10 then 48 + n else 87 + n

/-- Two lowercase hex digit bytes of a byte. -/
def hexByte (b : Nat) : List Nat :=
  [hexDigit (b / 16 % 16), hexDigit (b % 16)]

/-- Go `uuid.String()`: canonical 8-4-4-4-12 lowercase hex form, as bytes. -/
def uuidStringBytes (u : List Nat) : List Nat :=
  ((u.take 4).map hexByte).flatten ++ 45 ::
    (((u.drop 4).take 2).map hexByte).flatten ++ 45 ::
      (((u.drop 6).take 2).map hexByte).flatten ++ 45 ::
        (((u.drop 8).take 2).map hexByte).flatten ++ 45 ::
          ((u.drop 10).map hexByte).flatten

end Ssm

/-- Decidable equality for `Except` results, used to settle concrete runs of the
model by `decide`. -/
instance {e a : Type} [DecidableEq e] [DecidableEq a] : DecidableEq (Except e a) := fun x y =>
  match x, y with
  | .error u, .error v =>
    if h : u = v then isTrue (by rw [h]) else isFalse (by intro hh; cases hh; exact h rfl)
  | .error _, .ok _ => isFalse (by intro hh; cases hh)
  | .ok _, .error _ => isFalse (by intro hh; cases hh)
  | .ok u, .ok v =>
    if h : u = v then isTrue (by rw [h]) else isFalse (by intro hh; cases hh; exact h rfl)

/-! ## Data channel (`data_channel.go`) -/

namespace Ssm

/-- Errors surfaced by the data channel and buffer layer, one constructor per
distinct `error` value in the source; `eof` is `io.EOF`, `panicClosedChannel`
is the Go runtime panic from closing an already-closed channel. -/
inductive GoError where
  | unmarshal : UnmarshalError → GoError
  | bufferFull
  | eof
  | unknownPayload
  | unknownMessage
  | jsonError
  | panicClosedChannel
deriving DecidableEq, Inhabited

/-- The `messageBuffer` struct: a bounded ordered collection (`container/list`)
with a sequence-number index (`map[int64]*list.Element`).  List elements are
given unique identities (`Nat` ids drawn from `nextId`) so that the Go map of
element pointers and in-place list surgery are modelled exactly; `seqMap` is an
association list with unique keys (insertion overwrites the key, deletion
removes it). -/
structure MessageBuffer where
  size : Nat
  items : List (Nat × AgentMessage)
  seqMap : List (Int × Nat)
  nextId : Nat
deriving DecidableEq, Inhabited

/-- Go `NewMessageBuffer`. -/
def NewMessageBuffer (size : Nat) : MessageBuffer :=
  { size := size, items := [], seqMap := [], nextId := 0 }

/-- Go `messageBuffer.Len()` (the `container/list` length). -/
def MessageBuffer.Len (m : MessageBuffer) : Nat :=
  m.items.length

/-- Go `messageBuffer.Add`: reject when at capacity, otherwise push to the tail
and map the message's sequence number to the new element. -/
def MessageBuffer.Add (m : MessageBuffer) (msg : AgentMessage) :
    Except GoError MessageBuffer :=
  if m.Len = m.size then .error .bufferFull
  else .ok { m with
    items := m.items ++ [(m.nextId, msg)],
    seqMap := (msg.SequenceNumber, m.nextId) ::
      m.seqMap.filter (fun p => !(p.1 == msg.SequenceNumber)),
    nextId := m.nextId + 1 }

/-- Go `messageBuffer.Remove`: drop the indexed element from the list and
delete the map entry; no-op when the sequence number is absent. -/
def MessageBuffer.Remove (m : MessageBuffer) (seqNum : Int) : MessageBuffer :=
  match m.seqMap.lookup seqNum with
  | some id => { m with
      items := m.items.eraseP (fun p => p.1 == id),
      seqMap := m.seqMap.filter (fun p => !(p.1 == seqNum)) }
  | none => m

/-- Go `messageBuffer.Get`: lookup through the sequence index. -/
def MessageBuffer.Get (m : MessageBuffer) (seqNum : Int) : Option AgentMessage :=
  match m.seqMap.lookup seqNum with
  | some id => (m.items.find? (fun p => p.1 == id)).map (fun p => p.2)
  | none => none

/-! ### JSON emission for the acknowledge payload (`encoding/json` on the ack map) -/

/-- JSON escaping of one byte of a Go string, as produced by `encoding/json`
(standard escapes, control bytes as `\u00XX`, HTML-unsafe bytes escaped;
multi-byte UTF-8 passes through). -/
def jsonEscapeByte (b : Nat) : List Nat :=
  if b = 34 then [92, 34]
  else if b = 92 then [92, 92]
  else if b = 10 then [92, 110]
  else if b = 13 then [92, 114]
  else if b = 9 then [92, 116]
  else if b < 32 then [92, 117, 48, 48, hexDigit (b / 16 % 16), hexDigit (b % 16)]
  else if b = 60 ∨ b = 62 ∨ b = 38 then [92, 117, 48, 48, hexDigit (b / 16 % 16), hexDigit (b % 16)]
  else [b]

/-- A JSON string literal (quoted, escaped) for a byte string. -/
def jsonStringBytes (s : List Nat) : List Nat :=
  34 :: (s.map jsonEscapeByte).flatten ++ [34]

/-- Decimal digit bytes of a natural number, most significant first; the fuel
argument (instantiated with `n + 1`, an upper bound on the digit count) makes
the recursion structural. -/
def natDecGo : Nat → Nat → List Nat
  | 0, _ => []
  | fuel + 1, n => if n < 10 then [48 + n] else natDecGo fuel (n / 10) ++ [48 + n % 10]

/-- Decimal digit bytes of a natural number. -/
def natDec (n : Nat) : List Nat := natDecGo (n + 1) n

/-- Decimal byte representation of a Go `int64`, as `encoding/json` emits it. -/
def intDecimalBytes (i : Int) : List Nat :=
  if i < 0 then 45 :: natDec i.natAbs else natDec i.toNat

/-- The payload built by `sendAcknowledgeMessage`: `json.Marshal` of the Go map
`\x7bAcknowledgedMessageType, AcknowledgedMessageId, AcknowledgedMessageSequenceNumber,
IsSequentialMessage\x7d`; map keys are emitted in sorted order. -/
def jsonAck (mt mid : List Nat) (seq : Int) : List Nat :=
  123 ::
    (jsonStringBytes (strBytes "AcknowledgedMessageId") ++ 58 ::
      jsonStringBytes (uuidStringBytes mid) ++ 44 ::
        jsonStringBytes (strBytes "AcknowledgedMessageSequenceNumber") ++ 58 ::
          intDecimalBytes seq ++ 44 ::
            jsonStringBytes (strBytes "AcknowledgedMessageType") ++ 58 ::
              jsonStringBytes mt ++ 44 ::
                jsonStringBytes (strBytes "IsSequentialMessage") ++ 58 ::
                  strBytes "true") ++ [125]

/-! ### Handshake and channel-closed payload shapes (`types.go`) -/

/-- `RequestedClientAction` (the `ActionParameters interface\x7b\x7d` field is
opaque and unused by the client, so it is not modelled). -/
structure RequestedClientAction where
  ActionType : List Nat
deriving DecidableEq, Inhabited

/-- `HandshakeRequestPayload`. -/
structure HandshakeRequestPayload where
  AgentVersion : List Nat
  RequestedClientActions : List RequestedClientAction
deriving DecidableEq, Inhabited

/-- `ProcessedClientAction` (`ActionResult`/`Error` keep their zero values in
this client and are not modelled). -/
structure ProcessedClientAction where
  ActionType : List Nat
  ActionStatus : Nat
deriving DecidableEq, Inhabited

/-- `HandshakeResponsePayload`. -/
structure HandshakeResponsePayload where
  ClientVersion : List Nat
  ProcessedClientActions : List ProcessedClientAction
deriving DecidableEq, Inhabited

/-- `ChannelClosedPayload` (fields other than `Output` are opaque to the
channel logic). -/
structure ChannelClosedPayload where
  Output : List Nat
deriving DecidableEq, Inhabited

/-- `ActionType` label `SessionType`. -/
def SessionTypeA : List Nat := strBytes "SessionType"

/-- Go `buildHandshakeResponse`: one processed action per requested action;
`SessionType` actions get status `Success = 1`, anything else keeps the
zero-valued action. -/
def buildHandshakeResponse (actions : List RequestedClientAction) : HandshakeResponsePayload :=
  { ClientVersion := strBytes "0.0.1",
    ProcessedClientActions := actions.map (fun a =>
      if a.ActionType = SessionTypeA then
        { ActionType := a.ActionType, ActionStatus := 1 }
      else
        { ActionType := [], ActionStatus := 0 }) }

/-- The external `encoding/json` collaborators used by `HandleMsg` for payloads
whose shape is decided by the Go standard library: parsing a handshake request,
serialising a handshake response, and parsing a channel-closed payload.  The
channel model is parametric in them. -/
structure ExternalCodecs where
  unmarshalHandshakeReq : List Nat → Except GoError HandshakeRequestPayload
  marshalHandshakeResp : HandshakeResponsePayload → List Nat
  unmarshalChannelClosed : List Nat → Except GoError ChannelClosedPayload

/-! ### Channel state and operations -/

/-- The `SsmDataChannel` struct immediately relevant to the message-level state
machine.  The WebSocket is replaced by `sent`, the trace of frames transmitted
with `ws.WriteMessage` (frame bytes paired with the message they serialise);
`now` and `uuidGen` are the deterministic stand-ins for `time.Now()` and
`uuid.New()` used when building fresh messages. -/
structure ChannelState where
  seqNum : Int
  inSeqNum : Int
  synSent : Bool
  pausePub : Bool
  handshakeCh : Option Bool
  outMsgBuf : Option MessageBuffer
  inMsgBuf : Option MessageBuffer
  sent : List (List Nat × AgentMessage)
  now : Int
  uuidGen : List Nat
deriving DecidableEq

/-- Go `NewAgentMessage`: header length 116, schema 1, current time, fresh UUID. -/
def NewAgentMessage (c : ChannelState) : AgentMessage :=
  { headerLength := 116, MessageType := [], schemaVersion := 1,
    createdDate := some c.now, SequenceNumber := 0, Flags := FlagData,
    messageID := c.uuidGen, payloadDigest := [], PayloadType := PTUndefined,
    payloadLength := 0, Payload := [] }

/-- The channel state right after `Open()`: zero-valued `SsmDataChannel` fields
plus the `Open` initialisations (handshake latch, inbound and outbound buffers
of capacity 50). -/
def openedChannel (now : Int) (uuidGen : List Nat) : ChannelState :=
  { seqNum := 0, inSeqNum := 0, synSent := false, pausePub := false,
    handshakeCh := some false, outMsgBuf := some (NewMessageBuffer 50),
    inMsgBuf := some (NewMessageBuffer 50), sent := [], now := now,
    uuidGen := uuidGen }

/-- Go `WriteMsg`: force SYN with sequence 0 on the first send, marshal, mark
SYN sent, buffer for retransmit (except `Acknowledge` messages and
`HandshakeResponse` payloads), and transmit unless publication is paused.
Returns `(n, err, state)`; the WebSocket write itself is modelled as
successful. -/
def SsmDataChannel.WriteMsg (c : ChannelState) (msg : AgentMessage) :
    Nat × Option GoError × ChannelState :=
  let c1 := if !c.synSent then { c with seqNum := 0 } else c
  let msg1 := if !c.synSent then { msg with Flags := FlagSyn, SequenceNumber := 0 } else msg
  let c2 := if msg1.SequenceNumber < 0 then { c1 with seqNum := 1 } else c1
  match msg1.MarshalBinary with
  | .error e => (0, some (.unmarshal e), c2)
  | .ok frame =>
    let msg2 := msg1.prepare
    let c3 := { c2 with synSent := true }
    let step : Option GoError × ChannelState :=
      match c3.outMsgBuf with
      | some b =>
        if msg2.MessageType ≠ AcknowledgeT ∧ msg2.PayloadType ≠ PTHandshakeResponse then
          match b.Add msg2 with
          | .ok b2 => (none, { c3 with outMsgBuf := some b2 })
          | .error e => (some e, c3)
        else (none, c3)
      | none => (none, c3)
    if !step.2.pausePub then
      (msg2.payloadLength, none, { step.2 with sent := step.2.sent ++ [(frame, msg2)] })
    else
      (msg2.payloadLength, step.1, step.2)

/-- Go `Write`: send an `input_stream_data`/`Output` message with the next
outbound sequence number. -/
def SsmDataChannel.Write (c : ChannelState) (payload : List Nat) :
    Nat × Option GoError × ChannelState :=
  let c1 := { c with seqNum := c.seqNum + 1 }
  let msg := { (NewAgentMessage c1) with
    MessageType := InputStreamDataT, Flags := FlagData,
    PayloadType := PTOutput, Payload := payload, SequenceNumber := c1.seqNum }
  SsmDataChannel.WriteMsg c1 msg

/-- Go `sendAcknowledgeMessage`: build the JSON ack payload echoing the
inbound message's type, id and sequence number, and send it as an
`acknowledge` message whose own sequence number also echoes the inbound one. -/
def SsmDataChannel.sendAcknowledgeMessage (c : ChannelState) (msg : AgentMessage) :
    Option GoError × ChannelState :=
  let payload := jsonAck msg.MessageType msg.messageID msg.SequenceNumber
  let agentMsg := { (NewAgentMessage c) with
    MessageType := AcknowledgeT,
    SequenceNumber := msg.SequenceNumber, Flags := FlagAck,
    PayloadType := PTUndefined, Payload := payload }
  let r := SsmDataChannel.WriteMsg c agentMsg
  (r.2.1, r.2.2)

/-- Go `processHandshakeRequest`: parse the request, send the built response
reusing the request's sequence number. -/
def SsmDataChannel.processHandshakeRequest (ext : ExternalCodecs) (c : ChannelState)
    (msg : AgentMessage) : Option GoError × ChannelState :=
  match ext.unmarshalHandshakeReq msg.Payload with
  | .error e => (some e, c)
  | .ok req =>
    let payload := ext.marshalHandshakeResp (buildHandshakeResponse req.RequestedClientActions)
    let out := { (NewAgentMessage c) with
      MessageType := InputStreamDataT,
      SequenceNumber := msg.SequenceNumber, Flags := FlagData,
      PayloadType := PTHandshakeResponse, Payload := payload }
    let r := SsmDataChannel.WriteMsg c out
    (r.2.1, r.2.2)

/-- The loop body of `processInboundQueue`: repeatedly take the message at the
expected inbound sequence, advance the counter, append its payload, and remove
it.  Every successful `Get` finds a `seqMap` key that `Remove` then deletes,
so the map size bounds the number of iterations; the fuel argument makes the
recursion structural. -/
def drainFuel : Nat → Int → MessageBuffer → List Nat × Int × MessageBuffer
  | 0, s, b => ([], s, b)
  | fuel + 1, s, b =>
    match b.Get s with
    | some msg =>
      let r := drainFuel fuel (s + 1) (b.Remove msg.SequenceNumber)
      (msg.Payload ++ r.1, r.2)
    | none => ([], s, b)

/-- Go `processInboundQueue`: drain the reorder buffer in sequence order from
the expected inbound sequence number, concatenating payloads. -/
def SsmDataChannel.processInboundQueue (c : ChannelState) : List Nat × ChannelState :=
  match c.inMsgBuf with
  | none => ([], c)
  | some b =>
    let r := drainFuel (b.seqMap.length + 1) c.inSeqNum b
    (r.1, { c with inSeqNum := r.2.1, inMsgBuf := some r.2.2 })

/-- Result of `HandleMsg`: the payload returned to the caller, the error, and
the updated channel state. -/
structure HandleResult where
  payload : List Nat
  err : Option GoError
  state : ChannelState
deriving DecidableEq

/-- The common tail of the non-early-return branches of `HandleMsg`: send an
acknowledge for the inbound message, then drain the inbound queue. -/
def SsmDataChannel.handleMsgTail (c : ChannelState) (m : AgentMessage) : HandleResult :=
  let a := SsmDataChannel.sendAcknowledgeMessage c m
  match a.1 with
  | some e => ⟨[], some e, a.2⟩
  | none =>
    let q := SsmDataChannel.processInboundQueue a.2
    ⟨q.1, none, q.2⟩

/-- Go `HandleMsg`: decode the frame and dispatch on message type / payload
type, per the inbound state machine.  Early returns (duplicate buffered
output, buffer-add failure, handshake failure, `channel_closed`, unknown
types) skip the acknowledge-and-drain tail. -/
def SsmDataChannel.HandleMsg (ext : ExternalCodecs) (c : ChannelState) (data : List Nat) :
    HandleResult :=
  match AgentMessage.UnmarshalBinary data with
  | .error e => ⟨[], some (.unmarshal e), c⟩
  | .ok m =>
    if m.MessageType = AcknowledgeT then
      let c1 := match c.outMsgBuf with
                | some b => { c with outMsgBuf := some (b.Remove m.SequenceNumber) }
                | none => c
      SsmDataChannel.handleMsgTail c1 m
    else if m.MessageType = PausePublicationT then
      SsmDataChannel.handleMsgTail { c with pausePub := true } m
    else if m.MessageType = StartPublicationT then
      SsmDataChannel.handleMsgTail { c with pausePub := false } m
    else if m.MessageType = OutputStreamDataT then
      if m.PayloadType = PTOutput then
        match c.inMsgBuf with
        | none =>
          let a := SsmDataChannel.sendAcknowledgeMessage c m
          ⟨m.Payload, none, a.2⟩
        | some b =>
          if m.SequenceNumber < c.inSeqNum then ⟨[], none, c⟩
          else
            match b.Add m with
            | .error e => ⟨[], some e, c⟩
            | .ok b2 => SsmDataChannel.handleMsgTail { c with inMsgBuf := some b2 } m
      else if m.PayloadType = PTHandshakeRequest then
        let p := SsmDataChannel.processHandshakeRequest ext c m
        match p.1 with
        | some e => ⟨[], some e, p.2⟩
        | none => SsmDataChannel.handleMsgTail p.2 m
      else if m.PayloadType = PTHandshakeComplete then
        match c.handshakeCh with
        | none => SsmDataChannel.handleMsgTail c m
        | some false => SsmDataChannel.handleMsgTail { c with handshakeCh := some true } m
        | some true => ⟨[], some .panicClosedChannel, c⟩
      else ⟨[], some .unknownPayload, c⟩
    else if m.MessageType = ChannelClosedT then
      match ext.unmarshalChannelClosed m.Payload with
      | .error e => ⟨[], some e, c⟩
      | .ok p => ⟨p.Output, some .eof, c⟩
    else ⟨[], some .unknownMessage, c⟩

/-- Fold `HandleMsg` over a list of inbound frames, concatenating the payloads
returned to the caller. -/
def handleRun (ext : ExternalCodecs) (c : ChannelState) (frames : List (List Nat)) :
    List Nat × ChannelState :=
  frames.foldl (fun acc f =>
    let r := SsmDataChannel.HandleMsg ext acc.2 f
    (acc.1 ++ r.payload, r.state)) ([], c)

/-- Fold `Write` over a list of payloads. -/
def writeAll (c : ChannelState) (payloads : List (List Nat)) : ChannelState :=
  payloads.foldl (fun st p => (SsmDataChannel.Write st p).2.2) c

end Ssm

/-! ## Word-level and list-segment lemmas -/

namespace Ssm

/-- Length of a `be32` encoding. -/
@[simp] theorem be32_length (n : Nat) : (be32 n).length = 4 := rfl

/-- Length of a `be64` encoding. -/
@[simp] theorem be64_length (n : Nat) : (be64 n).length = 8 := rfl

/-- Reading back a big-endian 32-bit encoding. -/
theorem beVal_be32 (n : Nat) : beVal (be32 n) = n % 4294967296 := by
  simp [beVal, be32]; omega

/-- Reading back a big-endian 64-bit encoding. -/
theorem beVal_be64 (n : Nat) : beVal (be64 n) = n % 18446744073709551616 := by
  simp [beVal, be64]; omega

/-- Round trip of the two's-complement views for in-range `int64` values. -/
theorem toInt64_toU64 (i : Int) (h1 : -9223372036854775808 ≤ i)
    (h2 : i < 9223372036854775808) : toInt64 (toU64 i) = i := by
  unfold toInt64 toU64; split <;> omega

/-- Dropping past a prefix of known length. -/
theorem drop_seg (a rest : List Nat) (n k : Nat) (h : a.length = k) (hkn : k ≤ n) :
    (a ++ rest).drop n = rest.drop (n - k) := by
  subst h
  obtain ⟨m, rfl⟩ : ∃ m, n = a.length + m := ⟨n - a.length, by omega⟩
  rw [List.drop_append, show a.length + m - a.length = m from by omega]

/-- Taking exactly a segment of known length. -/
theorem take_seg (mid post : List Nat) (k : Nat) (h : mid.length = k) :
    (mid ++ post).take k = mid := by
  subst h; exact List.take_left mid post

/-- Extracting a byte segment at a known offset. -/
theorem slice_seg (pre mid rest : List Nat) (n k : Nat) (hpre : pre.length = n)
    (hmid : mid.length = k) :
    ((pre ++ (mid ++ rest)).drop n).take k = mid := by
  rw [drop_seg pre (mid ++ rest) n n hpre (Nat.le_refl n), Nat.sub_self, List.drop_zero,
      take_seg mid rest k hmid]

/-- Reading a 32-bit field at a known offset. -/
theorem readU32_seg (pre rest : List Nat) (n v : Nat) (hpre : pre.length = n) :
    readU32 (pre ++ (be32 v ++ rest)) n = v % 4294967296 := by
  unfold readU32
  rw [slice_seg pre (be32 v) rest n 4 hpre (be32_length v), beVal_be32]

/-- Reading a 64-bit field at a known offset. -/
theorem readU64_seg (pre rest : List Nat) (n v : Nat) (hpre : pre.length = n) :
    readU64 (pre ++ (be64 v ++ rest)) n = v % 18446744073709551616 := by
  unfold readU64
  rw [slice_seg pre (be64 v) rest n 8 hpre (be64_length v), beVal_be64]

/-- The half-swap of `formatUUIDBytes` is an involution on 16-byte lists. -/
theorem formatUUIDBytes_involution (l : List Nat) (h : l.length = 16) :
    formatUUIDBytes (formatUUIDBytes l) = l := by
  unfold formatUUIDBytes
  rw [drop_seg (l.drop 8) (l.take 8) 8 8 (by simp [h]) (Nat.le_refl 8), Nat.sub_self,
      List.drop_zero, take_seg (l.drop 8) (l.take 8) 8 (by simp [h]),
      List.take_append_drop]

/-- The SHA-256 digest is always 32 bytes. -/
@[simp] theorem sha256_length (msg : List Nat) : (sha256 msg).length = 32 := by
  simp [sha256]

/-- The padded message type is always exactly 32 bytes. -/
@[simp] theorem convertMessageType_length (m : AgentMessage) :
    m.convertMessageType.length = 32 := by
  unfold AgentMessage.convertMessageType
  split
  · simp; omega
  · simp; omega

end Ssm

namespace Ssm

/-! ### Trimming lemmas for the message-type padding -/

/-- `dropWhile` skips a prefix on which `p` holds everywhere. -/
theorem dropWhile_append_all (p : Nat → Bool) (a b : List Nat)
    (h : ∀ x ∈ a, p x = true) : (a ++ b).dropWhile p = b.dropWhile p := by
  induction a with
  | nil => simp
  | cons x xs ih =>
    simp only [List.cons_append, List.dropWhile_cons, h x (List.mem_cons_self x xs), if_true]
    exact ih (fun y hy => h y (List.mem_cons_of_mem x hy))

/-- `dropWhile` is the identity when the head does not satisfy `p`. -/
theorem dropWhile_eq_self_of_head (p : Nat → Bool) (l : List Nat)
    (h : ∀ x, l.head? = some x → p x = false) : l.dropWhile p = l := by
  cases l with
  | nil => rfl
  | cons x xs => simp [List.dropWhile_cons, h x rfl]

/-- `trimRightP` is the identity when the last byte does not satisfy `p`. -/
theorem trimRightP_eq_self (p : Nat → Bool) (l : List Nat)
    (h : ∀ x, l.getLast? = some x → p x = false) : trimRightP p l = l := by
  unfold trimRightP
  rw [dropWhile_eq_self_of_head p l.reverse
        (fun x hx => h x (by rwa [List.head?_reverse] at hx)),
      List.reverse_reverse]

/-- `trimRightP` removes a suffix on which `p` holds everywhere. -/
theorem trimRightP_append_all (p : Nat → Bool) (a b : List Nat)
    (h : ∀ x ∈ b, p x = true) : trimRightP p (a ++ b) = trimRightP p a := by
  unfold trimRightP
  rw [List.reverse_append,
      dropWhile_append_all p b.reverse a.reverse (fun x hx => h x (by simpa using hx))]

/-- Last element of a nonempty replicate. -/
theorem getLast?_replicate_succ (n : Nat) (a : Nat) :
    (List.replicate (n + 1) a).getLast? = some a := by
  induction n with
  | zero => rfl
  | succ k ih => rw [List.replicate_succ, List.getLast?_cons, ih]; rfl

/-- `dropWhile` never lengthens a list. -/
theorem dropWhile_length_le (p : Nat → Bool) (l : List Nat) :
    (l.dropWhile p).length ≤ l.length := by
  induction l with
  | nil => simp
  | cons a t ih =>
    rw [List.dropWhile_cons]
    split
    · exact Nat.le_succ_of_le ih
    · exact Nat.le_refl _

/-- Members of a right-trimmed list are members of the original. -/
theorem mem_trimRightP {p : Nat → Bool} {l : List Nat} {x : Nat}
    (hx : x ∈ trimRightP p l) : x ∈ l := by
  unfold trimRightP at hx
  rw [List.mem_reverse] at hx
  exact List.mem_reverse.mp ((List.dropWhile_sublist _).subset hx)

/-- Left Unicode-whitespace trimming never lengthens a byte string. -/
theorem trimLeftSpaceFuel_length_le : ∀ (fuel : Nat) (s : List Nat),
    (trimLeftSpaceFuel fuel s).length ≤ s.length := by
  intro fuel
  induction fuel with
  | zero => intro s; exact Nat.le_refl _
  | succ fuel ih =>
    intro s
    cases s with
    | nil => exact Nat.le_refl _
    | cons a t =>
      simp only [trimLeftSpaceFuel]
      split
      · calc (trimLeftSpaceFuel fuel ((a :: t).drop (decodeRuneGo (a :: t)).2)).length
            ≤ ((a :: t).drop (decodeRuneGo (a :: t)).2).length := ih _
          _ ≤ (a :: t).length := by rw [List.length_drop]; omega
      · exact Nat.le_refl _

/-- Right Unicode-whitespace trimming never lengthens a byte string. -/
theorem trimRightSpaceFuel_length_le : ∀ (fuel : Nat) (s : List Nat),
    (trimRightSpaceFuel fuel s).length ≤ s.length := by
  intro fuel
  induction fuel with
  | zero => intro s; exact Nat.le_refl _
  | succ fuel ih =>
    intro s
    cases s with
    | nil => exact Nat.le_refl _
    | cons a t =>
      simp only [trimRightSpaceFuel]
      split
      · calc (trimRightSpaceFuel fuel
              ((a :: t).take ((a :: t).length - (decodeLastRuneGo (a :: t)).2))).length
            ≤ ((a :: t).take ((a :: t).length - (decodeLastRuneGo (a :: t)).2)).length := ih _
          _ ≤ (a :: t).length := by rw [List.length_take]; omega
      · exact Nat.le_refl _

/-- The right ASCII scan never lengthens its input. -/
theorem trimSpaceRightRev_length_le : ∀ (l : List Nat),
    (trimSpaceRightRev l).length ≤ l.length := by
  intro l
  induction l with
  | nil => exact Nat.le_refl _
  | cons c rest ih =>
    simp only [trimSpaceRightRev]
    split
    · rw [List.length_reverse]
      calc (trimRightSpace (trimLeftSpace ((c :: rest).reverse))).length
          ≤ (trimLeftSpace ((c :: rest).reverse)).length := trimRightSpaceFuel_length_le _ _
        _ ≤ ((c :: rest).reverse).length := trimLeftSpaceFuel_length_le _ _
        _ = (c :: rest).length := List.length_reverse _
    · split
      · exact Nat.le_succ_of_le ih
      · exact Nat.le_refl _

/-- `bytes.TrimSpace` never lengthens its input. -/
theorem trimSpaceGo_length_le : ∀ (s : List Nat), (trimSpaceGo s).length ≤ s.length := by
  intro s
  induction s with
  | nil => exact Nat.le_refl _
  | cons b rest ih =>
    simp only [trimSpaceGo]
    split
    · calc (trimRightSpace (trimLeftSpace (b :: rest))).length
          ≤ (trimLeftSpace (b :: rest)).length := trimRightSpaceFuel_length_le _ _
        _ ≤ (b :: rest).length := trimLeftSpaceFuel_length_le _ _
    · split
      · exact Nat.le_succ_of_le ih
      · rw [List.length_reverse]
        calc (trimSpaceRightRev ((b :: rest).reverse)).length
            ≤ ((b :: rest).reverse).length := trimSpaceRightRev_length_le _
          _ = (b :: rest).length := List.length_reverse _

/-- On all-ASCII input, the right scan of `TrimSpace` is plain ASCII
`dropWhile` (on the reversed string): the non-ASCII fallback never fires. -/
theorem trimSpaceRightRev_ascii (l : List Nat) (h : ∀ b ∈ l, b < 128) :
    trimSpaceRightRev l = l.dropWhile wsByte := by
  induction l with
  | nil => rfl
  | cons c rest ih =>
    have hc := h c (List.mem_cons_self c rest)
    simp only [trimSpaceRightRev, List.dropWhile_cons]
    rw [if_neg (by omega)]
    by_cases hws : wsByte c = true
    · rw [if_pos hws, if_pos hws]
      exact ih (fun b hb => h b (List.mem_cons_of_mem c hb))
    · rw [if_neg hws, if_neg hws]

/-- On all-ASCII input, `bytes.TrimSpace` is exactly the ASCII trim: drop
leading and trailing `asciiSpace` bytes. -/
theorem trimSpaceGo_ascii (s : List Nat) (h : ∀ b ∈ s, b < 128) :
    trimSpaceGo s = trimRightP wsByte (s.dropWhile wsByte) := by
  induction s with
  | nil => rfl
  | cons b rest ih =>
    have hb := h b (List.mem_cons_self b rest)
    simp only [trimSpaceGo, List.dropWhile_cons]
    rw [if_neg (by omega)]
    by_cases hws : wsByte b = true
    · rw [if_pos hws, if_pos hws]
      exact ih (fun x hx => h x (List.mem_cons_of_mem b hx))
    · rw [if_neg hws, if_neg hws]
      rw [trimSpaceRightRev_ascii ((b :: rest).reverse)
            (fun x hx => h x (List.mem_reverse.mp hx))]
      rfl

/-- On all-ASCII input, `parseMessageType` reduces to NUL right-trim,
whitespace left-drop, whitespace right-trim, all at the byte level. -/
theorem parseMessageType_ascii (data : List Nat) (h : ∀ b ∈ data, b < 128) :
    parseMessageType data
      = trimRightP wsByte ((trimRightP (fun b => b == 0) data).dropWhile wsByte) := by
  unfold parseMessageType
  exact trimSpaceGo_ascii _ (fun b hb => h b (mem_trimRightP hb))

/-- Padding with spaces and trimming recovers an ASCII message-type label
that has no leading or trailing whitespace, does not end in a NUL byte, and
fits in the 32-byte field. -/
theorem parseMessageType_convert (m : AgentMessage)
    (h10 : 10 ≤ m.MessageType.length) (h32 : m.MessageType.length ≤ 32)
    (hascii : ∀ b ∈ m.MessageType, b < 128)
    (hhead : ∀ x, m.MessageType.head? = some x → wsByte x = false)
    (hlast : ∀ x, m.MessageType.getLast? = some x → wsByte x = false ∧ (x == 0) = false) :
    parseMessageType m.convertMessageType = m.MessageType := by
  have hne : m.MessageType ≠ [] := by
    intro h; rw [h] at h10; simp at h10
  unfold AgentMessage.convertMessageType
  split
  · -- exactly 32 bytes, no padding
    rw [List.take_of_length_le h32, parseMessageType_ascii m.MessageType hascii]
    rw [trimRightP_eq_self (fun b => b == 0) m.MessageType (fun x hx => (hlast x hx).2),
        dropWhile_eq_self_of_head wsByte m.MessageType hhead,
        trimRightP_eq_self wsByte m.MessageType (fun x hx => (hlast x hx).1)]
  · -- padded with 32 - len spaces
    rename_i hlt
    rw [List.take_of_length_le (by simp; omega)]
    set k := 32 - m.MessageType.length with hkdef
    have hrep : k = (k - 1) + 1 := by omega
    obtain ⟨a, as, hmt⟩ : ∃ a as, m.MessageType = a :: as := by
      cases hcs : m.MessageType with
      | nil => exact absurd hcs hne
      | cons a as => exact ⟨a, as, rfl⟩
    have h1 : trimRightP (fun b => b == 0) (m.MessageType ++ List.replicate k 32)
        = m.MessageType ++ List.replicate k 32 :=
      trimRightP_eq_self _ _ (fun x hx => by
        rw [List.getLast?_append_of_ne_nil m.MessageType (by rw [hrep]; simp), hrep,
            getLast?_replicate_succ] at hx
        cases hx; rfl)
    have h2 : (m.MessageType ++ List.replicate k 32).dropWhile wsByte
        = m.MessageType ++ List.replicate k 32 :=
      dropWhile_eq_self_of_head _ _ (fun x hx => by
        rw [hmt] at hx
        simp only [List.cons_append, List.head?_cons] at hx
        cases hx
        exact hhead _ (by rw [hmt]; rfl))
    have h3 : trimRightP wsByte (m.MessageType ++ List.replicate k 32)
        = trimRightP wsByte m.MessageType :=
      trimRightP_append_all _ _ _ (fun x hx => by rw [List.eq_of_mem_replicate hx]; rfl)
    have h4 : trimRightP wsByte m.MessageType = m.MessageType :=
      trimRightP_eq_self _ _ (fun x hx => (hlast x hx).1)
    rw [parseMessageType_ascii (m.MessageType ++ List.replicate k 32) (fun x hx => by
          rcases List.mem_append.mp hx with hx | hx
          · exact hascii x hx
          · rw [List.eq_of_mem_replicate hx]; omega)]
    rw [h1, h2, h3, h4]

/-! ### Validation and marshalling lemmas -/

/-- `ValidateMessage` succeeds, returning the receiver with the digest field
overwritten, whenever the structural checks pass; note that the digest
comparison can never fail (it compares the freshly computed digest with
itself, due to the mutation inside `sha256PayloadDigest`). -/
theorem ValidateMessage_ok (m : AgentMessage)
    (hl1 : m.headerLength ≤ 116) (hl2 : 112 ≤ m.headerLength)
    (hsv : 1 ≤ m.schemaVersion) (hmt : 10 ≤ m.MessageType.length)
    (hcd : m.createdDate ≠ none) (hmid : m.messageID.length = 16)
    (hpl : m.Payload.length = m.payloadLength) :
    m.ValidateMessage = .ok { m with payloadDigest := sha256 m.Payload } := by
  unfold AgentMessage.ValidateMessage
  rw [if_neg (by omega), if_neg (by omega), if_neg (by omega), if_neg hcd,
      if_neg (by omega), if_neg (by omega)]
  simp

/-- `MarshalBinary` succeeds and emits the prepared message whenever the
structural checks pass on the prepared message. -/
theorem MarshalBinary_ok (m : AgentMessage)
    (hl1 : m.headerLength ≤ 116) (hl2 : 112 ≤ m.headerLength)
    (hsv : 1 ≤ m.schemaVersion) (hmt : 10 ≤ m.MessageType.length)
    (hcd : m.createdDate ≠ none) (hmid : m.messageID.length = 16)
    (hlen : m.Payload.length < 4294967296) :
    m.MarshalBinary = .ok m.prepare.encodeBytes := by
  unfold AgentMessage.MarshalBinary
  rw [ValidateMessage_ok m.prepare hl1 hl2 hsv hmt hcd hmid
        (by simp [AgentMessage.prepare]; omega)]
  have : ({ m.prepare with payloadDigest := sha256 m.prepare.Payload } : AgentMessage)
      = m.prepare := by
    simp [AgentMessage.prepare]
  rw [this]

end Ssm

namespace Ssm

/-! ### Reading fields back from an encoded frame -/

/-- The `uint64` view of an `int64` is within range. -/
theorem toU64_lt (i : Int) : toU64 i < 18446744073709551616 := by
  unfold toU64; omega

/-- Length of an encoded frame. -/
theorem encodeBytes_length (m : AgentMessage)
    (hmid : m.messageID.length = 16) (hdig : m.payloadDigest.length = 32) :
    m.encodeBytes.length = 120 + m.Payload.length := by
  unfold AgentMessage.encodeBytes
  simp [formatUUIDBytes, hmid, hdig]
  omega

/-- The header-length read at offset 0 of an encoded frame. -/
theorem encode_read_hl (m : AgentMessage) :
    readU32 m.encodeBytes 0 = m.headerLength % 4294967296 := by
  unfold AgentMessage.encodeBytes readU32
  rw [List.drop_zero, take_seg (be32 m.headerLength) _ 4 (be32_length _), beVal_be32]

/-- The message-type segment at offset 4 of an encoded frame. -/
theorem encode_read_mt (m : AgentMessage) :
    (m.encodeBytes.drop 4).take 32 = m.convertMessageType := by
  unfold AgentMessage.encodeBytes
  exact slice_seg _ _ _ 4 32 (be32_length _) (convertMessageType_length m)

/-- The schema-version read at offset 36 of an encoded frame. -/
theorem encode_read_sv (m : AgentMessage) :
    readU32 m.encodeBytes 36 = m.schemaVersion % 4294967296 := by
  unfold AgentMessage.encodeBytes
  rw [← List.append_assoc]
  exact readU32_seg _ _ 36 _ (by simp)

/-- The sequence-number read at offset 48 of an encoded frame. -/
theorem encode_read_sq (m : AgentMessage) :
    readU64 m.encodeBytes 48 = toU64 m.SequenceNumber % 18446744073709551616 := by
  unfold AgentMessage.encodeBytes
  rw [← List.append_assoc, ← List.append_assoc, ← List.append_assoc]
  exact readU64_seg _ _ 48 _ (by simp)

/-- The flags read at offset 56 of an encoded frame. -/
theorem encode_read_fl (m : AgentMessage) :
    readU64 m.encodeBytes 56 = m.Flags % 18446744073709551616 := by
  unfold AgentMessage.encodeBytes
  rw [← List.append_assoc, ← List.append_assoc, ← List.append_assoc, ← List.append_assoc]
  exact readU64_seg _ _ 56 _ (by simp)

/-- The UUID segment at offset 64 of an encoded frame. -/
theorem encode_read_mid (m : AgentMessage) (hmid : m.messageID.length = 16) :
    (m.encodeBytes.drop 64).take 16 = formatUUIDBytes m.messageID := by
  unfold AgentMessage.encodeBytes
  rw [← List.append_assoc, ← List.append_assoc, ← List.append_assoc, ← List.append_assoc,
      ← List.append_assoc]
  exact slice_seg _ _ _ 64 16 (by simp) (by simp [formatUUIDBytes, hmid])

/-- The payload-type read at offset 112 of an encoded frame. -/
theorem encode_read_pt (m : AgentMessage) (hmid : m.messageID.length = 16)
    (hdig : m.payloadDigest.length = 32) :
    readU32 m.encodeBytes 112 = m.PayloadType % 4294967296 := by
  unfold AgentMessage.encodeBytes
  rw [← List.append_assoc, ← List.append_assoc, ← List.append_assoc, ← List.append_assoc,
      ← List.append_assoc, ← List.append_assoc, ← List.append_assoc]
  exact readU32_seg _ _ 112 _ (by simp [formatUUIDBytes, hmid, hdig])

/-- The payload-length read at offset 116 of an encoded frame. -/
theorem encode_read_pl (m : AgentMessage) (hmid : m.messageID.length = 16)
    (hdig : m.payloadDigest.length = 32) :
    readU32 m.encodeBytes 116 = m.payloadLength % 4294967296 := by
  unfold AgentMessage.encodeBytes
  rw [← List.append_assoc, ← List.append_assoc, ← List.append_assoc, ← List.append_assoc,
      ← List.append_assoc, ← List.append_assoc, ← List.append_assoc, ← List.append_assoc]
  exact readU32_seg _ _ 116 _ (by simp [formatUUIDBytes, hmid, hdig])

/-- The payload bytes at offset 120 of an encoded frame. -/
theorem encode_read_pay (m : AgentMessage) (hmid : m.messageID.length = 16)
    (hdig : m.payloadDigest.length = 32) :
    m.encodeBytes.drop 120 = m.Payload := by
  unfold AgentMessage.encodeBytes
  rw [← List.append_assoc, ← List.append_assoc, ← List.append_assoc, ← List.append_assoc,
      ← List.append_assoc, ← List.append_assoc, ← List.append_assoc, ← List.append_assoc,
      ← List.append_assoc]
  rw [drop_seg _ m.Payload 120 120 (by simp [formatUUIDBytes, hmid, hdig]) (Nat.le_refl 120),
      Nat.sub_self, List.drop_zero]

end Ssm

namespace Ssm

/-- Decoding an encoded frame recovers the message, for messages with the
canonical 116-byte header, in-range numeric fields, and a message-type label
that survives the space-padding round trip. -/
theorem UnmarshalBinary_encode (m : AgentMessage)
    (hhl : m.headerLength = 116)
    (hsv1 : 1 ≤ m.schemaVersion) (hsv2 : m.schemaVersion < 4294967296)
    (h10 : 10 ≤ m.MessageType.length) (h32 : m.MessageType.length ≤ 32)
    (hascii : ∀ b ∈ m.MessageType, b < 128)
    (hhead : ∀ x, m.MessageType.head? = some x → wsByte x = false)
    (hlast : ∀ x, m.MessageType.getLast? = some x → wsByte x = false ∧ (x == 0) = false)
    (hsq1 : -9223372036854775808 ≤ m.SequenceNumber)
    (hsq2 : m.SequenceNumber < 9223372036854775808)
    (hfl : m.Flags < 18446744073709551616)
    (hmid : m.messageID.length = 16)
    (hdig : m.payloadDigest.length = 32)
    (hpt : m.PayloadType < 4294967296)
    (hplv : m.payloadLength = m.Payload.length)
    (hlen : m.Payload.length < 4294967296) :
    AgentMessage.UnmarshalBinary m.encodeBytes = .ok
      { headerLength := 116, MessageType := m.MessageType, schemaVersion := m.schemaVersion,
        createdDate := parseTime (m.encodeBytes.drop 40),
        SequenceNumber := m.SequenceNumber, Flags := m.Flags, messageID := m.messageID,
        payloadDigest := sha256 m.Payload, PayloadType := m.PayloadType,
        payloadLength := m.Payload.length, Payload := m.Payload } := by
  have hL := encodeBytes_length m hmid hdig
  have h0 : readU32 m.encodeBytes 0 = 116 := by
    rw [encode_read_hl, hhl]
  have hsv : readU32 m.encodeBytes 36 = m.schemaVersion := by
    rw [encode_read_sv]; omega
  have hsq : readU64 m.encodeBytes 48 = toU64 m.SequenceNumber := by
    rw [encode_read_sq]; have := toU64_lt m.SequenceNumber; omega
  have hflr : readU64 m.encodeBytes 56 = m.Flags := by
    rw [encode_read_fl]; omega
  have hptr : readU32 m.encodeBytes 112 = m.PayloadType := by
    rw [encode_read_pt m hmid hdig]; omega
  have hplr : readU32 m.encodeBytes 116 = m.Payload.length := by
    rw [encode_read_pl m hmid hdig, hplv]; omega
  unfold AgentMessage.UnmarshalBinary
  simp only [hL, h0, hsv, hsq, hflr, hptr, hplr, encode_read_mt m,
    encode_read_mid m hmid, encode_read_pay m hmid hdig,
    parseMessageType_convert m h10 h32 hascii hhead hlast,
    formatUUIDBytes_involution m.messageID hmid,
    toInt64_toU64 m.SequenceNumber hsq1 hsq2]
  rw [if_neg (show ¬(120 + m.Payload.length < 112) from by omega)]
  simp only [true_and, if_true, List.take_length]
  rw [if_neg (show ¬(120 + m.Payload.length < 116) from by omega),
      if_neg (show ¬(120 + m.Payload.length < 116 + 4) from by omega),
      if_neg (show ¬(120 + m.Payload.length < 116 + 4 + m.Payload.length) from by omega)]
  rw [ValidateMessage_ok _ (by simp) (by simp) (by simpa using hsv1)
        (by simpa using h10) (by simp [parseTime]) (by simpa using hmid) (by simp)]

end Ssm

namespace Ssm

/-- Discharge the head-byte side condition from concrete values. -/
theorem head_cond_of (l : List Nat) (b : Nat) (hb : l.head? = some b)
    (hws : wsByte b = false) : ∀ x, l.head? = some x → wsByte x = false :=
  fun x hx => by rw [hb] at hx; cases hx; exact hws

/-- Discharge the last-byte side condition from concrete values. -/
theorem last_cond_of (l : List Nat) (b : Nat) (hb : l.getLast? = some b)
    (h1 : wsByte b = false) (h2 : (b == 0) = false) :
    ∀ x, l.getLast? = some x → wsByte x = false ∧ (x == 0) = false :=
  fun x hx => by rw [hb] at hx; cases hx; exact ⟨h1, h2⟩

/-- A message `Encode` accepts whose `MessageType` carries a trailing space:
the padding erases the space, so decoding the encoding trims it away. -/
def c1Msg : AgentMessage :=
  { headerLength := 116, MessageType := strBytes "acknowledge ", schemaVersion := 1,
    createdDate := some 1700000000000000000, SequenceNumber := 4, Flags := 0,
    messageID := List.replicate 16 7, payloadDigest := [], PayloadType := 1,
    payloadLength := 0, Payload := [104] }

/-- C1 counterexample: `c1Msg` is accepted by `Encode` (its `MessageType`,
`acknowledge` followed by a space, has length 12 ≥ 10 and every other check
passes), yet decoding its encoding yields a message whose `MessageType` is the
trimmed label `acknowledge`, different from `c1Msg.MessageType`: the space
padding on the wire is indistinguishable from a trailing space in the label,
so `Decode ∘ Encode` is not the identity on the publicly observable
`MessageType` field. -/
theorem C1_roundtrip_counterexample :
    ((c1Msg.MarshalBinary.bind AgentMessage.UnmarshalBinary).map
        (fun m2 => m2.MessageType)) = .ok AcknowledgeT ∧
    c1Msg.MessageType ≠ AcknowledgeT := by
  constructor
  · rfl
  · decide

/-- C1 (amended): for every `AgentMessage` that `Encode` accepts whose header
length is the canonical 116, whose numeric fields are within their Go machine
widths, and whose `MessageType` is ASCII (every byte below 128, as all the
protocol's labels are) and survives the space-padding round trip (at most
32 bytes, no leading whitespace, no trailing whitespace or NUL), decoding the
bytes produced by `Encode` yields a message equal to the original in all
publicly observable fields (`MessageType`, `SequenceNumber`, `Flags`,
`PayloadType`, `Payload`).  The ASCII condition matters: `bytes.TrimSpace`
also trims non-ASCII Unicode whitespace, so a label ending in U+00A0 would be
mangled by decoding even though no byte-level condition flags it. -/
theorem C1_roundtrip (m : AgentMessage)
    (hhl : m.headerLength = 116)
    (hsv1 : 1 ≤ m.schemaVersion) (hsv2 : m.schemaVersion < 4294967296)
    (hcd : m.createdDate ≠ none)
    (h10 : 10 ≤ m.MessageType.length) (h32 : m.MessageType.length ≤ 32)
    (hascii : ∀ b ∈ m.MessageType, b < 128)
    (hhead : ∀ x, m.MessageType.head? = some x → wsByte x = false)
    (hlast : ∀ x, m.MessageType.getLast? = some x → wsByte x = false ∧ (x == 0) = false)
    (hsq1 : -9223372036854775808 ≤ m.SequenceNumber)
    (hsq2 : m.SequenceNumber < 9223372036854775808)
    (hfl : m.Flags < 18446744073709551616)
    (hmid : m.messageID.length = 16)
    (hpt : m.PayloadType < 4294967296)
    (hlen : m.Payload.length < 4294967296) :
    ∃ frame m2, m.MarshalBinary = .ok frame ∧
      AgentMessage.UnmarshalBinary frame = .ok m2 ∧
      m2.MessageType = m.MessageType ∧ m2.SequenceNumber = m.SequenceNumber ∧
      m2.Flags = m.Flags ∧ m2.PayloadType = m.PayloadType ∧ m2.Payload = m.Payload := by
  refine ⟨m.prepare.encodeBytes,
    { headerLength := 116, MessageType := m.MessageType, schemaVersion := m.schemaVersion,
      createdDate := parseTime (m.prepare.encodeBytes.drop 40),
      SequenceNumber := m.SequenceNumber, Flags := m.Flags, messageID := m.messageID,
      payloadDigest := sha256 m.Payload, PayloadType := m.PayloadType,
      payloadLength := m.Payload.length, Payload := m.Payload },
    MarshalBinary_ok m (by omega) (by omega) hsv1 h10 hcd hmid hlen,
    ?_, rfl, rfl, rfl, rfl, rfl⟩
  exact UnmarshalBinary_encode m.prepare hhl hsv1 hsv2 h10 h32 hascii hhead hlast hsq1 hsq2
    hfl hmid (by simp [AgentMessage.prepare]) hpt
    (by simp [AgentMessage.prepare]; omega) hlen

/-- Concrete message for the C1 witness. -/
def c1WitnessMsg : AgentMessage :=
  { headerLength := 116, MessageType := InputStreamDataT, schemaVersion := 1,
    createdDate := some 1700000000000000000, SequenceNumber := 5, Flags := 0,
    messageID := List.replicate 16 7, payloadDigest := [], PayloadType := 1,
    payloadLength := 0, Payload := [104] }

/-- C1 witness: the amended round trip applied to a concrete
`input_stream_data` message with sequence 5 and a one-byte payload. -/
theorem C1_roundtrip_witness :
    ∃ frame m2, c1WitnessMsg.MarshalBinary = .ok frame ∧
      AgentMessage.UnmarshalBinary frame = .ok m2 ∧
      m2.MessageType = c1WitnessMsg.MessageType ∧
      m2.SequenceNumber = c1WitnessMsg.SequenceNumber ∧
      m2.Flags = c1WitnessMsg.Flags ∧ m2.PayloadType = c1WitnessMsg.PayloadType ∧
      m2.Payload = c1WitnessMsg.Payload :=
  C1_roundtrip c1WitnessMsg rfl (by decide) (by decide) (by decide) (by decide) (by decide)
    (by decide)
    (head_cond_of _ 105 rfl rfl) (last_cond_of _ 97 (by decide) (by decide) (by decide))
    (by decide) (by decide) (by decide) (by decide) (by decide) (by decide)

end Ssm

namespace Ssm

/-! ### C10 — which validation branches Encode can reach -/

/-- A message whose payload has exactly `2^32` bytes: `uint32(len(Payload))`
truncates to 0, so `MarshalBinary` fails its own length check. -/
def c10Msg : AgentMessage :=
  { headerLength := 116, MessageType := InputStreamDataT, schemaVersion := 1,
    createdDate := some 1, SequenceNumber := 0, Flags := 0,
    messageID := List.replicate 16 0, payloadDigest := [], PayloadType := 0,
    payloadLength := 0, Payload := List.replicate 4294967296 0 }

/-- C10 counterexample: `Encode` does return the payload-length-mismatch error
for a payload of `2^32` bytes, because `payloadLength = uint32(len(Payload))`
truncates to 0 while the validator compares it against the untruncated
`len(Payload)`.  (No list is materialised here: the proof is symbolic in the
replicated payload.) -/
theorem marshal_length_mismatch_of_huge (p : List Nat) (hp : p.length = 4294967296) :
    ({ c10Msg with Payload := p } : AgentMessage).MarshalBinary = .error .lengthMismatch := by
  have hc : p.length ≠ p.length % 4294967296 := by
    rw [hp]
    omega
  unfold AgentMessage.MarshalBinary AgentMessage.ValidateMessage
  simp only [AgentMessage.prepare]
  rw [if_neg (show ¬(c10Msg.headerLength > 116 ∨ c10Msg.headerLength < 112) from by decide),
      if_neg (show ¬(c10Msg.schemaVersion < 1) from by decide),
      if_neg (show ¬(c10Msg.MessageType.length < 10) from by decide),
      if_neg (show ¬(c10Msg.createdDate = none) from by decide),
      if_neg (show ¬(c10Msg.messageID.length ≠ 16) from by decide),
      if_pos hc]

/-- C10 counterexample, stated at the concrete input: `Encode` applied to
`c10Msg` returns the payload-length-mismatch error. -/
theorem C10_counterexample : c10Msg.MarshalBinary = .error .lengthMismatch := by
  have h := marshal_length_mismatch_of_huge (List.replicate 4294967296 0)
    (by rw [List.length_replicate])
  exact h

/-- C10 (amended): `Encode` recomputes the SHA-256 payload digest and sets the
payload length field to `uint32(len(Payload))` before validating, so the
payload-digest-mismatch branch is unreachable from `Encode` for every message
(indeed `ValidateMessage`'s digest comparison is between the freshly computed
digest and itself), and the payload-length-mismatch branch is unreachable
whenever `len(Payload) < 2^32`; in particular neither error depends on the
digest or length fields held in the message beforehand. -/
theorem C10_encode_validation (m : AgentMessage) :
    m.MarshalBinary ≠ .error .digestMismatch ∧
    (m.Payload.length < 4294967296 → m.MarshalBinary ≠ .error .lengthMismatch) := by
  constructor
  · unfold AgentMessage.MarshalBinary AgentMessage.ValidateMessage
    split_ifs with h1 h2 h3 h4 h5 h6 <;> simp_all
  · intro hlen
    unfold AgentMessage.MarshalBinary AgentMessage.ValidateMessage
    split_ifs with h1 h2 h3 h4 h5 h6 <;> simp_all
    simp [AgentMessage.prepare] at h6
    omega

/-- C10 witness: the amended claim applied to a concrete message with a prior
bogus digest and length field. -/
theorem C10_encode_validation_witness :
    c1Msg.MarshalBinary ≠ .error .digestMismatch ∧
    c1Msg.MarshalBinary ≠ .error .lengthMismatch :=
  ⟨(C10_encode_validation c1Msg).1, (C10_encode_validation c1Msg).2 (by decide)⟩

end Ssm

namespace Ssm

/-! ### C5 — the digest check on decode -/

/-- The frame produced by encoding `c1WitnessMsg` (a well-formed frame whose
single payload byte, at offset 120, is 104). -/
def c5Frame : List Nat := c1WitnessMsg.MarshalBinary.toOption.getD []

/-- The same frame with its payload byte altered to 200; the stored digest
bytes at offsets 80–111 still hold the SHA-256 of the original payload. -/
def c5TamperedFrame : List Nat := c5Frame.set 120 200

/-- C5: decoding a frame whose payload byte was altered SUCCEEDS, instead of
failing with a payload digest mismatch.  `ValidateMessage` evaluates
`bytes.Equal(m.sha256PayloadDigest(), m.payloadDigest)`; Go evaluates the
method call first, and the call assigns `m.payloadDigest` before the second
operand is read, so the comparison is between the freshly computed digest and
itself and can never fail — the stored digest is never consulted. -/
theorem C5_tampered_frame_decodes :
    (∃ m1, AgentMessage.UnmarshalBinary c5Frame = .ok m1 ∧ m1.Payload = [104]) ∧
    c5Frame.getD 120 0 = 104 ∧
    c5TamperedFrame = c5Frame.set 120 200 ∧
    (∃ m2, AgentMessage.UnmarshalBinary c5TamperedFrame = .ok m2 ∧ m2.Payload = [200]) := by
  refine ⟨⟨_, rfl, rfl⟩, rfl, rfl, ⟨_, rfl, rfl⟩⟩

/-! ### C7 — header-length dispatch on decode -/

/-- Inversion for a successful validation: the result is the receiver with the
digest recomputed. -/
theorem ValidateMessage_ok_inv (m m2 : AgentMessage) (h : m.ValidateMessage = .ok m2) :
    m2 = { m with payloadDigest := sha256 m.Payload } := by
  unfold AgentMessage.ValidateMessage at h
  split_ifs at h <;> simp_all

/-- C7: for every frame whose `HeaderLength` field reads 112, a successful
decode leaves `PayloadType` at `Undefined` and reads `PayloadLength` at
offset 112 (the payload following at offset 116); for every frame whose
`HeaderLength` reads 116, `PayloadType` is read at offset 112 and
`PayloadLength` at offset 116 (the payload following at offset 120). -/
theorem C7_header_length_dispatch (data : List Nat) (m : AgentMessage)
    (h : AgentMessage.UnmarshalBinary data = .ok m) :
    (readU32 data 0 = 112 →
      m.PayloadType = PTUndefined ∧ m.payloadLength = readU32 data 112 ∧
      m.Payload = (data.drop 116).take (readU32 data 112)) ∧
    (readU32 data 0 = 116 →
      m.PayloadType = readU32 data 112 ∧ m.payloadLength = readU32 data 116 ∧
      m.Payload = (data.drop 120).take (readU32 data 116)) := by
  unfold AgentMessage.UnmarshalBinary at h
  constructor
  · intro h112
    rw [h112] at h
    by_cases hA : data.length < 112
    · rw [if_pos hA] at h; simp at h
    rw [if_neg hA, if_neg (show ¬((112 : Nat) = 116 ∧ data.length < 116) from by simp),
        if_neg (show ¬(112 : Nat) = 116 from by decide)] at h
    by_cases hB : data.length < 112 + 4
    · rw [if_pos hB] at h; simp at h
    rw [if_neg hB] at h
    by_cases hC : data.length < 112 + 4 + readU32 data 112
    · rw [if_pos hC] at h; simp at h
    rw [if_neg hC] at h
    have h2 := ValidateMessage_ok_inv _ _ h
    subst h2
    exact ⟨rfl, rfl, rfl⟩
  · intro h116
    rw [h116] at h
    by_cases hA : data.length < 112
    · rw [if_pos hA] at h; simp at h
    rw [if_neg hA] at h
    by_cases hA2 : data.length < 116
    · rw [if_pos (show (116 : Nat) = 116 ∧ data.length < 116 from ⟨rfl, hA2⟩)] at h
      simp at h
    rw [if_neg (show ¬((116 : Nat) = 116 ∧ data.length < 116) from fun hcon => hA2 hcon.2),
        if_pos (show (116 : Nat) = 116 from rfl)] at h
    by_cases hB : data.length < 116 + 4
    · rw [if_pos hB] at h; simp at h
    rw [if_neg hB] at h
    by_cases hC : data.length < 116 + 4 + readU32 data 116
    · rw [if_pos hC] at h; simp at h
    rw [if_neg hC] at h
    have h2 := ValidateMessage_ok_inv _ _ h
    subst h2
    exact ⟨rfl, rfl, rfl⟩

end Ssm

namespace Ssm

/-- A well-formed 112-byte-header frame (`channel_closed`, NUL padded) with a
3-byte payload whose length field sits at offset 112. -/
def c7Frame112 : List Nat :=
  be32 112 ++ (ChannelClosedT ++ List.replicate 18 0) ++ be32 1 ++ be64 0 ++
    be64 (toU64 9) ++ be64 0 ++ List.replicate 16 7 ++ List.replicate 32 0 ++
    be32 3 ++ [65, 66, 67]

/-- A well-formed 116-byte-header frame (`output_stream_data`, space padded)
with payload type `Output` and a 1-byte payload. -/
def c7Frame116 : List Nat :=
  be32 116 ++ (OutputStreamDataT ++ List.replicate 14 32) ++ be32 1 ++ be64 0 ++
    be64 0 ++ be64 0 ++ List.replicate 16 7 ++ List.replicate 32 0 ++
    be32 1 ++ be32 1 ++ [77]

/-- C7 witness: the dispatch applied to a concrete 112-header frame and a
concrete 116-header frame. -/
theorem C7_header_length_dispatch_witness :
    (∃ m, AgentMessage.UnmarshalBinary c7Frame112 = .ok m ∧
      m.PayloadType = PTUndefined ∧ m.payloadLength = readU32 c7Frame112 112 ∧
      m.Payload = (c7Frame112.drop 116).take (readU32 c7Frame112 112)) ∧
    (∃ m, AgentMessage.UnmarshalBinary c7Frame116 = .ok m ∧
      m.PayloadType = readU32 c7Frame116 112 ∧ m.payloadLength = readU32 c7Frame116 116 ∧
      m.Payload = (c7Frame116.drop 120).take (readU32 c7Frame116 116)) := by
  constructor
  · obtain ⟨m, hm⟩ : ∃ m, AgentMessage.UnmarshalBinary c7Frame112 = .ok m := ⟨_, rfl⟩
    exact ⟨m, hm, (C7_header_length_dispatch c7Frame112 m hm).1 (by rfl)⟩
  · obtain ⟨m, hm⟩ : ∃ m, AgentMessage.UnmarshalBinary c7Frame116 = .ok m := ⟨_, rfl⟩
    exact ⟨m, hm, (C7_header_length_dispatch c7Frame116 m hm).2 (by rfl)⟩

/-! ### C6 — UUID byte swap -/

/-- A well-formed frame whose 16 UUID bytes at offset 64 are
`00 01 02 03 04 05 06 07 08 09 0A 0B 0C 0D 0E 0F` and whose payload is empty. -/
def c6Frame : List Nat :=
  be32 116 ++ (OutputStreamDataT ++ List.replicate 14 32) ++ be32 1 ++ be64 0 ++
    be64 0 ++ be64 0 ++ [0, 1, 2, 3, 4, 5, 6, 7, 8, 9, 10, 11, 12, 13, 14, 15] ++
    List.replicate 32 0 ++ be32 1 ++ be32 0

/-- C6: decoding `c6Frame` yields a message whose UUID bytes are the two
8-byte halves swapped, with canonical string form
`08090a0b-0c0d-0e0f-0001-020304050607`; re-encoding that message emits the
original 16 UUID bytes at offset 64, and the half swap applied on read and on
write is an involution on 16-byte strings. -/
theorem C6_uuid_swap_roundtrip :
    (∃ m, AgentMessage.UnmarshalBinary c6Frame = .ok m ∧
      m.messageID = [8, 9, 10, 11, 12, 13, 14, 15, 0, 1, 2, 3, 4, 5, 6, 7] ∧
      uuidStringBytes m.messageID = strBytes "08090a0b-0c0d-0e0f-0001-020304050607" ∧
      ∃ frame2, m.MarshalBinary = .ok frame2 ∧
        (frame2.drop 64).take 16 = [0, 1, 2, 3, 4, 5, 6, 7, 8, 9, 10, 11, 12, 13, 14, 15]) ∧
    (∀ l : List Nat, l.length = 16 → formatUUIDBytes (formatUUIDBytes l) = l) := by
  constructor
  · exact ⟨_, rfl, rfl, rfl, _, rfl, rfl⟩
  · exact fun l hl => formatUUIDBytes_involution l hl

/-- C6 witness: the involution conjunct applied to the concrete UUID bytes of
the scenario. -/
theorem C6_uuid_swap_roundtrip_witness :
    List.length [0, 1, 2, 3, 4, 5, 6, 7, 8, 9, 10, 11, 12, 13, 14, 15] = 16 ∧
    formatUUIDBytes (formatUUIDBytes [0, 1, 2, 3, 4, 5, 6, 7, 8, 9, 10, 11, 12, 13, 14, 15]) =
      [0, 1, 2, 3, 4, 5, 6, 7, 8, 9, 10, 11, 12, 13, 14, 15] :=
  ⟨by decide, C6_uuid_swap_roundtrip.2 _ (by decide)⟩

end Ssm

namespace Ssm

/-! ### C8 — buffer capacity and retrievability -/

/-- A sequence of `Add` calls, collecting each call's result (`none` for
success) and threading the buffer (a failed `Add` leaves it unchanged). -/
def addAll (b : MessageBuffer) : List AgentMessage → List (Option GoError) × MessageBuffer
  | [] => ([], b)
  | msg :: rest =>
    match b.Add msg with
    | .ok b2 =>
      let r := addAll b2 rest
      (none :: r.1, r.2)
    | .error e =>
      let r := addAll b rest
      (some e :: r.1, r.2)

/-- Well-formedness of the element-id discipline: every list element id and
every id stored in the sequence index is below the next fresh id. -/
def WFBuf (b : MessageBuffer) : Prop :=
  (∀ q ∈ b.items, q.1 < b.nextId) ∧ (∀ p ∈ b.seqMap, p.2 < b.nextId)

/-- A fresh buffer is well-formed. -/
theorem WFBuf_new (N : Nat) : WFBuf (NewMessageBuffer N) := by
  constructor <;> intro q hq <;> simp [NewMessageBuffer] at hq

/-- Lookup at the key just inserted. -/
theorem lookup_cons_self (k : Int) (v : Nat) (t : List (Int × Nat)) :
    ((k, v) :: t).lookup k = some v := by
  simp [List.lookup]

/-- Lookup skips a head with a different key. -/
theorem lookup_cons_ne (k a : Int) (v : Nat) (t : List (Int × Nat)) (h : k ≠ a) :
    ((a, v) :: t).lookup k = t.lookup k := by
  have hb : (k == a) = false := by simpa using h
  simp [List.lookup, hb]

/-- A successful lookup's binding is a member of the association list. -/
theorem lookup_mem {l : List (Int × Nat)} {k : Int} {v : Nat}
    (h : l.lookup k = some v) : (k, v) ∈ l := by
  induction l with
  | nil => simp [List.lookup] at h
  | cons a t ih =>
    by_cases hk : k = a.1
    · obtain ⟨a1, a2⟩ := a
      simp only at hk
      subst hk
      rw [lookup_cons_self] at h
      cases h
      exact List.mem_cons_self _ _
    · obtain ⟨a1, a2⟩ := a
      rw [lookup_cons_ne k a1 a2 t hk] at h
      exact List.mem_cons_of_mem _ (ih h)

/-- `Add` succeeds exactly below capacity, with the explicit result buffer. -/
theorem Add_ok (b : MessageBuffer) (msg : AgentMessage) (h : b.Len ≠ b.size) :
    b.Add msg = .ok { b with
      items := b.items ++ [(b.nextId, msg)],
      seqMap := (msg.SequenceNumber, b.nextId) ::
        b.seqMap.filter (fun p => !(p.1 == msg.SequenceNumber)),
      nextId := b.nextId + 1 } := by
  unfold MessageBuffer.Add
  rw [if_neg h]

/-- `Add` at capacity fails and leaves the buffer unchanged. -/
theorem Add_full (b : MessageBuffer) (msg : AgentMessage) (h : b.Len = b.size) :
    b.Add msg = .error .bufferFull := by
  unfold MessageBuffer.Add
  rw [if_pos h]

/-- A successful `Add` preserves well-formedness. -/
theorem WFBuf_Add (b b2 : MessageBuffer) (msg : AgentMessage)
    (hwf : WFBuf b) (h : b.Add msg = .ok b2) : WFBuf b2 := by
  unfold MessageBuffer.Add at h
  split_ifs at h
  cases h
  constructor
  · intro q hq
    simp only [List.mem_append, List.mem_singleton] at hq
    rcases hq with hq | hq
    · exact Nat.lt_succ_of_lt (hwf.1 q hq)
    · rw [hq]; exact Nat.lt_succ_self _
  · intro p hp
    simp only [List.mem_cons] at hp
    rcases hp with hp | hp
    · rw [hp]; exact Nat.lt_succ_self _
    · exact Nat.lt_succ_of_lt (hwf.2 p (List.mem_of_mem_filter hp))

/-- `find?` skips a list in which nothing satisfies the predicate. -/
theorem find?_append_none {p : Nat × AgentMessage → Bool} {l1 l2 : List (Nat × AgentMessage)}
    (h : ∀ x ∈ l1, p x = false) : (l1 ++ l2).find? p = l2.find? p := by
  induction l1 with
  | nil => rfl
  | cons a t ih =>
    rw [List.cons_append, List.find?_cons, h a (List.mem_cons_self a t)]
    exact ih (fun x hx => h x (List.mem_cons_of_mem a hx))

/-- `find?` ignores an appended element with a different id. -/
theorem find?_append_single_ne (l : List (Nat × AgentMessage)) (nid id : Nat)
    (msg : AgentMessage) (hne : nid ≠ id) :
    (l ++ [(nid, msg)]).find? (fun p => p.1 == id) = l.find? (fun p => p.1 == id) := by
  have hb : (nid == id) = false := by simpa using hne
  induction l with
  | nil => simp [List.find?_cons, hb]
  | cons a t ih =>
    by_cases hpa : (a.1 == id) = true
    · simp [List.find?_cons, hpa]
    · simp only [List.cons_append, List.find?_cons]
      rw [show (a.1 == id) = false from by simpa using hpa]
      exact ih

/-- After a successful `Add`, the added message is retrievable by its
sequence number. -/
theorem Get_Add_self (b b2 : MessageBuffer) (msg : AgentMessage)
    (hwf : WFBuf b) (h : b.Add msg = .ok b2) :
    b2.Get msg.SequenceNumber = some msg := by
  unfold MessageBuffer.Add at h
  split_ifs at h
  cases h
  unfold MessageBuffer.Get
  rw [lookup_cons_self]
  show ((b.items ++ [(b.nextId, msg)]).find? (fun p => p.1 == b.nextId)).map
      (fun p => p.2) = some msg
  rw [find?_append_none (fun x hx => by
        have hid := hwf.1 x hx
        simp only [beq_eq_false_iff_ne]
        omega)]
  simp [List.find?]

/-- Lookup is unchanged by deleting a different key. -/
theorem lookup_filter_ne (l : List (Int × Nat)) (s t : Int) (hne : s ≠ t) :
    (l.filter (fun p => !(p.1 == t))).lookup s = l.lookup s := by
  induction l with
  | nil => rfl
  | cons a t2 ih =>
    obtain ⟨a1, a2⟩ := a
    by_cases hat : a1 = t
    · rw [show ((a1, a2) :: t2).filter (fun p => !(p.1 == t)) = t2.filter (fun p => !(p.1 == t)) from by
            simp [List.filter_cons, hat]]
      rw [ih, lookup_cons_ne s a1 a2 t2 (by omega)]
    · rw [show ((a1, a2) :: t2).filter (fun p => !(p.1 == t)) =
            (a1, a2) :: t2.filter (fun p => !(p.1 == t)) from by
            simp [List.filter_cons, hat]]
      by_cases hsa : s = a1
      · subst hsa
        rw [lookup_cons_self, lookup_cons_self]
      · rw [lookup_cons_ne s a1 a2 _ hsa, lookup_cons_ne s a1 a2 t2 hsa, ih]

/-- After a successful `Add`, lookups of other sequence numbers are unchanged. -/
theorem Get_Add_ne (b b2 : MessageBuffer) (msg : AgentMessage) (s : Int)
    (hwf : WFBuf b) (h : b.Add msg = .ok b2) (hne : s ≠ msg.SequenceNumber) :
    b2.Get s = b.Get s := by
  unfold MessageBuffer.Add at h
  split_ifs at h
  cases h
  unfold MessageBuffer.Get
  rw [lookup_cons_ne s msg.SequenceNumber b.nextId _ hne, lookup_filter_ne _ _ _ hne]
  cases hlk : b.seqMap.lookup s with
  | none => rfl
  | some id =>
    have hid : id < b.nextId := hwf.2 _ (lookup_mem hlk)
    show ((b.items ++ [(b.nextId, msg)]).find? (fun p => p.1 == id)).map (fun p => p.2)
        = (b.items.find? (fun p => p.1 == id)).map (fun p => p.2)
    rw [find?_append_single_ne b.items b.nextId id msg (by omega)]

end Ssm

namespace Ssm

/-- One step of `addAll` on a successful `Add`. -/
theorem addAll_cons_ok (b b2 : MessageBuffer) (msg : AgentMessage) (rest : List AgentMessage)
    (h : b.Add msg = .ok b2) :
    addAll b (msg :: rest) = (none :: (addAll b2 rest).1, (addAll b2 rest).2) := by
  simp [addAll, h]

/-- One step of `addAll` on a failed `Add`. -/
theorem addAll_cons_err (b : MessageBuffer) (msg : AgentMessage) (rest : List AgentMessage)
    (e : GoError) (h : b.Add msg = .error e) :
    addAll b (msg :: rest) = (some e :: (addAll b rest).1, (addAll b rest).2) := by
  simp [addAll, h]

/-- Filling a well-formed buffer below capacity with distinct sequence
numbers: every `Add` succeeds, lengths advance, and every inserted message is
retrievable; lookups of untouched sequence numbers are unchanged. -/
theorem addAll_fill (msgs : List AgentMessage) : ∀ b : MessageBuffer,
    WFBuf b →
    b.items.length + msgs.length ≤ b.size →
    (msgs.map (fun m => m.SequenceNumber)).Nodup →
    (addAll b msgs).1 = List.replicate msgs.length none ∧
    (addAll b msgs).2.items.length = b.items.length + msgs.length ∧
    (addAll b msgs).2.size = b.size ∧
    WFBuf (addAll b msgs).2 ∧
    (∀ s, s ∉ msgs.map (fun m => m.SequenceNumber) → (addAll b msgs).2.Get s = b.Get s) ∧
    (∀ i, i < msgs.length →
      (addAll b msgs).2.Get ((msgs.getD i default).SequenceNumber) =
        some (msgs.getD i default)) := by
  induction msgs with
  | nil =>
    intro b hwf hcap hnd
    exact ⟨rfl, by simp [addAll], rfl, hwf, fun s _ => rfl, fun i hi => absurd hi (by simp)⟩
  | cons msg rest ih =>
    intro b hwf hcap hnd
    have hblen : b.Len ≠ b.size := by
      unfold MessageBuffer.Len
      simp only [List.length_cons] at hcap
      omega
    obtain ⟨b2, hadd⟩ : ∃ b2, b.Add msg = .ok b2 := ⟨_, Add_ok b msg hblen⟩
    have hstep := addAll_cons_ok b b2 msg rest hadd
    have hwf2 := WFBuf_Add b b2 msg hwf hadd
    have hb2 : b2.items.length = b.items.length + 1 ∧ b2.size = b.size := by
      rw [Add_ok b msg hblen] at hadd
      cases hadd
      constructor <;> simp
    have hnd2 : (msg.SequenceNumber ∉ rest.map (fun m => m.SequenceNumber)) ∧
        (rest.map (fun m => m.SequenceNumber)).Nodup := by
      rw [List.map_cons, List.nodup_cons] at hnd
      exact hnd
    obtain ⟨r1, r2, r3, r4, r5, r6⟩ := ih b2 hwf2
      (by simp only [List.length_cons] at hcap; omega)
      hnd2.2
    rw [hstep]
    refine ⟨?_, ?_, ?_, r4, ?_, ?_⟩
    · rw [r1, List.length_cons, List.replicate_succ]
    · rw [r2, hb2.1, List.length_cons]; omega
    · rw [r3, hb2.2]
    · intro s hs
      rw [List.map_cons, List.mem_cons, not_or] at hs
      rw [r5 s hs.2, Get_Add_ne b b2 msg s hwf hadd hs.1]
    · intro i hi
      cases i with
      | zero =>
        show (addAll b2 rest).2.Get msg.SequenceNumber = some msg
        rw [r5 msg.SequenceNumber hnd2.1, Get_Add_self b b2 msg hwf hadd]
      | succ j =>
        have hj : j < rest.length := by simpa using hi
        show (addAll b2 rest).2.Get ((rest.getD j default).SequenceNumber) =
          some (rest.getD j default)
        exact r6 j hj

/-- `addAll` over an append runs the two halves in sequence. -/
theorem addAll_append (b : MessageBuffer) (l1 l2 : List AgentMessage) :
    addAll b (l1 ++ l2) =
      ((addAll b l1).1 ++ (addAll (addAll b l1).2 l2).1, (addAll (addAll b l1).2 l2).2) := by
  induction l1 generalizing b with
  | nil => simp [addAll]
  | cons m t ih =>
    rw [List.cons_append]
    cases hA : b.Add m with
    | ok b2 =>
      rw [addAll_cons_ok b b2 m (t ++ l2) hA, addAll_cons_ok b b2 m t hA, ih b2]
      simp
    | error e =>
      rw [addAll_cons_err b m (t ++ l2) e hA, addAll_cons_err b m t e hA, ih b]
      simp

/-- Adding one message to a buffer at capacity fails and changes nothing. -/
theorem addAll_full_single (b : MessageBuffer) (m : AgentMessage) (h : b.Len = b.size) :
    addAll b [m] = ([some GoError.bufferFull], b) := by
  rw [addAll_cons_err b m [] GoError.bufferFull (Add_full b m h)]
  rfl

/-- C8: adding `N + 1` messages with pairwise distinct sequence numbers to a
fresh buffer of capacity `N` makes the first `N` calls succeed and the last
return the buffer-full error, after which each of the first `N` messages is
still returned by `Get` on its sequence number. -/
theorem C8_buffer_capacity (N : Nat) (msgs : List AgentMessage)
    (hlen : msgs.length = N + 1)
    (hnd : (msgs.map (fun m => m.SequenceNumber)).Nodup) :
    (addAll (NewMessageBuffer N) msgs).1 =
      List.replicate N none ++ [some GoError.bufferFull] ∧
    ∀ i, i < N →
      (addAll (NewMessageBuffer N) msgs).2.Get ((msgs.getD i default).SequenceNumber) =
        some (msgs.getD i default) := by
  obtain ⟨lm, hlm⟩ : ∃ lm, msgs.drop N = [lm] :=
    List.length_eq_one.mp (by rw [List.length_drop, hlen]; omega)
  have hsplit : msgs = msgs.take N ++ [lm] := by rw [← hlm, List.take_append_drop]
  have htlen : (msgs.take N).length = N := by rw [List.length_take, hlen]; omega
  have hndt : ((msgs.take N).map (fun m => m.SequenceNumber)).Nodup := by
    rw [List.map_take]
    exact hnd.sublist (List.take_sublist N _)
  obtain ⟨r1, r2, r3, r4, r5, r6⟩ := addAll_fill (msgs.take N) (NewMessageBuffer N)
    (WFBuf_new N) (by simp [NewMessageBuffer, htlen]) hndt
  have hfull : (addAll (NewMessageBuffer N) (msgs.take N)).2.Len =
      (addAll (NewMessageBuffer N) (msgs.take N)).2.size := by
    unfold MessageBuffer.Len
    rw [r2, r3]
    simp [NewMessageBuffer, htlen]
  have hbuf : (addAll (NewMessageBuffer N) msgs).2 =
      (addAll (NewMessageBuffer N) (msgs.take N)).2 := by
    conv_lhs => rw [hsplit]
    rw [addAll_append, addAll_full_single _ lm hfull]
  constructor
  · conv_lhs => rw [hsplit]
    rw [addAll_append, addAll_full_single _ lm hfull, r1, htlen]
  · intro i hi
    rw [hbuf]
    have hgetD : msgs.getD i default = (msgs.take N).getD i default := by
      rw [List.getD_eq_getElem?_getD, List.getD_eq_getElem?_getD, List.getElem?_take,
          if_pos hi]
    rw [hgetD]
    exact r6 i (by omega)

/-- A message with the given sequence number, for the C8 witness. -/
def c8Msg (s : Int) : AgentMessage := { c1WitnessMsg with SequenceNumber := s }

/-- C8 witness: three distinct-sequence messages into a buffer of capacity 2. -/
theorem C8_buffer_capacity_witness :
    (addAll (NewMessageBuffer 2) [c8Msg 0, c8Msg 1, c8Msg 2]).1 =
      List.replicate 2 none ++ [some GoError.bufferFull] ∧
    ∀ i, i < 2 →
      (addAll (NewMessageBuffer 2) [c8Msg 0, c8Msg 1, c8Msg 2]).2.Get
          (([c8Msg 0, c8Msg 1, c8Msg 2].getD i default).SequenceNumber) =
        some ([c8Msg 0, c8Msg 1, c8Msg 2].getD i default) :=
  C8_buffer_capacity 2 [c8Msg 0, c8Msg 1, c8Msg 2] (by decide) (by decide)

end Ssm

namespace Ssm

/-! ### Decode-shape and length-bound lemmas for the channel layer -/

/-- Sanity checks of the decimal formatter. -/
theorem natDec_examples : natDec 0 = strBytes "0" ∧ natDec 1234 = strBytes "1234" ∧
    intDecimalBytes (-42) = strBytes "-42" := by
  refine ⟨rfl, rfl, rfl⟩

/-- Digit-count bound for the decimal formatter. -/
theorem natDecGo_length_le (fuel : Nat) : ∀ n k : Nat, 0 < k → n < 10 ^ k →
    (natDecGo fuel n).length ≤ k := by
  induction fuel with
  | zero => intro n k hk _; simp [natDecGo]
  | succ f ih =>
    intro n k hk hn
    unfold natDecGo
    split
    · simpa using hk
    · rename_i hge
      have hk2 : 2 ≤ k := by
        rcases Nat.lt_or_ge k 2 with hlt | hge2
        · interval_cases k <;> omega
        · exact hge2
      have hdiv : n / 10 < 10 ^ (k - 1) := by
        have : 10 ^ k = 10 ^ (k - 1) * 10 := by
          rw [← Nat.pow_succ]
          congr 1
          omega
        omega
      have := ih (n / 10) (k - 1) (by omega) hdiv
      simp only [List.length_append, List.length_cons, List.length_nil]
      omega

/-- An `int64` decimal representation is at most 21 bytes. -/
theorem intDecimalBytes_length_le (i : Int)
    (h1 : -9223372036854775808 ≤ i) (h2 : i < 9223372036854775808) :
    (intDecimalBytes i).length ≤ 21 := by
  unfold intDecimalBytes natDec
  have hb : ∀ m : Nat, m ≤ 9223372036854775808 → (natDecGo (m + 1) m).length ≤ 20 := by
    intro m hm
    exact natDecGo_length_le (m + 1) m 20 (by omega) (by omega)
  split
  · rename_i hneg
    have : i.natAbs ≤ 9223372036854775808 := by omega
    simp only [List.length_cons]
    have := hb i.natAbs this
    omega
  · have : i.toNat ≤ 9223372036854775808 := by omega
    have := hb i.toNat this
    omega

/-- Escaping a byte yields at most 6 bytes. -/
theorem jsonEscapeByte_length_le (b : Nat) : (jsonEscapeByte b).length ≤ 6 := by
  unfold jsonEscapeByte
  split_ifs <;> simp

/-- Flattened escapes are at most six bytes per input byte. -/
theorem flatten_escape_le (s : List Nat) :
    ((s.map jsonEscapeByte).flatten).length ≤ 6 * s.length := by
  induction s with
  | nil => simp
  | cons a t ih =>
    simp only [List.map_cons, List.flatten_cons, List.length_append, List.length_cons]
    have := jsonEscapeByte_length_le a
    omega

/-- A JSON string literal is at most `2 + 6 * n` bytes for an `n`-byte string. -/
theorem jsonStringBytes_length_le (s : List Nat) :
    (jsonStringBytes s).length ≤ 2 + 6 * s.length := by
  unfold jsonStringBytes
  have := flatten_escape_le s
  simp only [List.length_cons, List.length_append, List.length_singleton, List.length_nil]
  omega

/-- Two hex digits per byte. -/
theorem hexFlatten_length (l : List Nat) : ((l.map hexByte).flatten).length = 2 * l.length := by
  induction l with
  | nil => rfl
  | cons a t ih => simp [hexByte, ih]; omega

/-- The canonical UUID string of a 16-byte UUID is 36 bytes. -/
theorem uuidStringBytes_length (u : List Nat) (h : u.length = 16) :
    (uuidStringBytes u).length = 36 := by
  unfold uuidStringBytes
  simp only [List.length_append, List.length_cons, hexFlatten_length, List.length_take,
    List.length_drop, h]
  omega

/-- The acknowledge JSON payload is well below the `uint32` length bound. -/
theorem jsonAck_length_lt (mt mid : List Nat) (seq : Int)
    (hmt : mt.length ≤ 32) (hmid : mid.length = 16)
    (h1 : -9223372036854775808 ≤ seq) (h2 : seq < 9223372036854775808) :
    (jsonAck mt mid seq).length < 4294967296 := by
  unfold jsonAck
  have k1 := jsonStringBytes_length_le (strBytes "AcknowledgedMessageId")
  have k2 := jsonStringBytes_length_le (uuidStringBytes mid)
  have k3 := jsonStringBytes_length_le (strBytes "AcknowledgedMessageSequenceNumber")
  have k4 := intDecimalBytes_length_le seq h1 h2
  have k5 := jsonStringBytes_length_le (strBytes "AcknowledgedMessageType")
  have k6 := jsonStringBytes_length_le mt
  have k7 := jsonStringBytes_length_le (strBytes "IsSequentialMessage")
  have hu := uuidStringBytes_length mid hmid
  simp only [List.length_cons, List.length_append, List.length_nil] at k1 k3 k5 k7 ⊢
  have hs1 : (strBytes "AcknowledgedMessageId").length = 21 := by decide
  have hs2 : (strBytes "AcknowledgedMessageSequenceNumber").length = 33 := by decide
  have hs3 : (strBytes "AcknowledgedMessageType").length = 23 := by decide
  have hs4 : (strBytes "IsSequentialMessage").length = 19 := by decide
  have hs5 : (strBytes "true").length = 4 := by decide
  omega

/-- The `int64` reading of any 64-bit pattern lies in the `int64` range. -/
theorem toInt64_range (n : Nat) :
    -9223372036854775808 ≤ toInt64 n ∧ toInt64 n < 9223372036854775808 := by
  unfold toInt64
  split <;> constructor <;> omega

/-- Trimming never lengthens a byte string. -/
theorem parseMessageType_length_le (l : List Nat) :
    (parseMessageType l).length ≤ l.length := by
  unfold parseMessageType
  calc (trimSpaceGo (trimRightP (fun b => b == 0) l)).length
      ≤ (trimRightP (fun b => b == 0) l).length := trimSpaceGo_length_le _
    _ ≤ l.length := by
        unfold trimRightP
        rw [List.length_reverse]
        calc (l.reverse.dropWhile (fun b => b == 0)).length
            ≤ l.reverse.length := dropWhile_length_le _ _
          _ = l.length := List.length_reverse _

end Ssm

namespace Ssm

/-- The structural checks that a successful validation certifies. -/
theorem ValidateMessage_ok_conds (m m2 : AgentMessage) (h : m.ValidateMessage = .ok m2) :
    m.headerLength ≤ 116 ∧ 112 ≤ m.headerLength ∧ 1 ≤ m.schemaVersion ∧
    10 ≤ m.MessageType.length ∧ m.createdDate ≠ none ∧ m.messageID.length = 16 ∧
    m.Payload.length = m.payloadLength := by
  unfold AgentMessage.ValidateMessage at h
  split_ifs at h with h1 h2 h3 h4 h5 h6
  exact ⟨by omega, by omega, by omega, by omega, h4, by omega, by omega⟩

/-- Shape facts about any successfully decoded message: the UUID is 16 bytes,
the message type is between 10 and 32 bytes, the sequence number is in the
`int64` range, and the creation date is a non-zero time. -/
theorem UnmarshalBinary_ok_shape (data : List Nat) (m : AgentMessage)
    (h : AgentMessage.UnmarshalBinary data = .ok m) :
    m.messageID.length = 16 ∧ 10 ≤ m.MessageType.length ∧ m.MessageType.length ≤ 32 ∧
    -9223372036854775808 ≤ m.SequenceNumber ∧ m.SequenceNumber < 9223372036854775808 ∧
    m.createdDate ≠ none := by
  unfold AgentMessage.UnmarshalBinary at h
  by_cases hA : data.length < 112
  · rw [if_pos hA] at h; simp at h
  rw [if_neg hA] at h
  by_cases hB : readU32 data 0 = 116 ∧ data.length < 116
  · rw [if_pos hB] at h; simp at h
  rw [if_neg hB] at h
  by_cases hC : data.length < readU32 data 0 + 4
  · rw [if_pos hC] at h; simp at h
  rw [if_neg hC] at h
  by_cases hD : data.length < readU32 data 0 + 4 + readU32 data (readU32 data 0)
  · rw [if_pos hD] at h; simp at h
  rw [if_neg hD] at h
  have hconds := ValidateMessage_ok_conds _ _ h
  have hinv := ValidateMessage_ok_inv _ _ h
  subst hinv
  refine ⟨hconds.2.2.2.2.2.1, hconds.2.2.2.1, ?_, (toInt64_range _).1, (toInt64_range _).2,
    hconds.2.2.2.2.1⟩
  show (parseMessageType ((data.drop 4).take 32)).length ≤ 32
  have h1 := parseMessageType_length_le ((data.drop 4).take 32)
  have h2 : ((data.drop 4).take 32).length ≤ 32 := by
    rw [List.length_take]
    omega
  omega

/-- `prepare` leaves the message type unchanged. -/
theorem prepare_MessageType (m : AgentMessage) : m.prepare.MessageType = m.MessageType := rfl

/-- `prepare` leaves the payload type unchanged. -/
theorem prepare_PayloadType (m : AgentMessage) : m.prepare.PayloadType = m.PayloadType := rfl

/-- Effect of `WriteMsg` after the SYN, publication running: the frame is
transmitted, non-acknowledge non-handshake-response messages are offered to
the retransmit buffer, and no error is returned (a failed buffer insert is
swallowed when transmitting). -/
theorem WriteMsg_notpaused_eq (c : ChannelState) (msg : AgentMessage) (fr : List Nat)
    (hsyn : c.synSent = true) (hp : c.pausePub = false)
    (hseq : 0 ≤ msg.SequenceNumber) (hmar : msg.MarshalBinary = .ok fr) :
    SsmDataChannel.WriteMsg c msg =
      (msg.prepare.payloadLength, none,
       { c with
         outMsgBuf := match c.outMsgBuf with
           | some b =>
             if msg.MessageType ≠ AcknowledgeT ∧ msg.PayloadType ≠ PTHandshakeResponse then
               match b.Add msg.prepare with
               | .ok b2 => some b2
               | .error _ => some b
             else some b
           | none => none,
         sent := c.sent ++ [(fr, msg.prepare)] }) := by
  obtain ⟨sq, isq, syn, pp, hch, ob, ib, st, nw, ug⟩ := c
  simp only at hsyn hp
  subst hsyn
  subst hp
  unfold SsmDataChannel.WriteMsg
  simp only [Bool.not_true, Bool.false_eq_true, if_false]
  rw [if_neg (by simpa using not_lt.mpr hseq)]
  simp only [hmar]
  cases ob with
  | none => rfl
  | some b =>
    simp only [prepare_MessageType, prepare_PayloadType]
    by_cases hcond : msg.MessageType ≠ AcknowledgeT ∧ msg.PayloadType ≠ PTHandshakeResponse
    · simp only [if_pos hcond]
      cases b.Add msg.prepare with
      | ok b2 => rfl
      | error e => rfl
    · simp only [if_neg hcond]
      rfl

/-- Effect of `WriteMsg` after the SYN while publication is paused: nothing is
transmitted; non-acknowledge non-handshake-response messages are still offered
to the retransmit buffer, and only a buffer-insert failure is reported. -/
theorem WriteMsg_paused_eq (c : ChannelState) (msg : AgentMessage) (fr : List Nat)
    (hsyn : c.synSent = true) (hp : c.pausePub = true)
    (hseq : 0 ≤ msg.SequenceNumber) (hmar : msg.MarshalBinary = .ok fr) :
    SsmDataChannel.WriteMsg c msg =
      (msg.prepare.payloadLength,
       (match c.outMsgBuf with
        | some b =>
          if msg.MessageType ≠ AcknowledgeT ∧ msg.PayloadType ≠ PTHandshakeResponse then
            match b.Add msg.prepare with
            | .ok _ => none
            | .error e => some e
          else none
        | none => none),
       { c with
         outMsgBuf := match c.outMsgBuf with
           | some b =>
             if msg.MessageType ≠ AcknowledgeT ∧ msg.PayloadType ≠ PTHandshakeResponse then
               match b.Add msg.prepare with
               | .ok b2 => some b2
               | .error _ => some b
             else some b
           | none => none }) := by
  obtain ⟨sq, isq, syn, pp, hch, ob, ib, st, nw, ug⟩ := c
  simp only at hsyn hp
  subst hsyn
  subst hp
  unfold SsmDataChannel.WriteMsg
  simp only [Bool.not_true, Bool.false_eq_true, if_false]
  rw [if_neg (by simpa using not_lt.mpr hseq)]
  simp only [hmar]
  cases ob with
  | none => rfl
  | some b =>
    simp only [prepare_MessageType, prepare_PayloadType]
    by_cases hcond : msg.MessageType ≠ AcknowledgeT ∧ msg.PayloadType ≠ PTHandshakeResponse
    · simp only [if_pos hcond]
      cases b.Add msg.prepare with
      | ok b2 => rfl
      | error e => rfl
    · simp only [if_neg hcond]
      rfl

/-- `prepare` leaves the sequence number unchanged. -/
theorem prepare_SequenceNumber (m : AgentMessage) :
    m.prepare.SequenceNumber = m.SequenceNumber := rfl

/-- `prepare` leaves the flags unchanged. -/
theorem prepare_Flags (m : AgentMessage) : m.prepare.Flags = m.Flags := rfl

/-- `prepare` leaves the payload unchanged. -/
theorem prepare_Payload (m : AgentMessage) : m.prepare.Payload = m.Payload := rfl

/-- `processInboundQueue` never touches the wire trace. -/
theorem processInboundQueue_sent (c : ChannelState) :
    (SsmDataChannel.processInboundQueue c).2.sent = c.sent := by
  unfold SsmDataChannel.processInboundQueue
  cases c.inMsgBuf with
  | none => rfl
  | some b => rfl

/-! ### C9: writes while publication is paused -/

/-- A post-handshake channel state that has received `pause_publication`:
SYN sent, paused, retransmit buffer present and empty. -/
def c9State : ChannelState :=
  { seqNum := 7, inSeqNum := 0, synSent := true, pausePub := true,
    handshakeCh := some true, outMsgBuf := some (NewMessageBuffer 10),
    inMsgBuf := some (NewMessageBuffer 10), sent := [], now := 1700000000000,
    uuidGen := List.range 16 }

/-- An outbound `acknowledge` message (the kind `sendAcknowledgeMessage`
builds) handed to `WriteMsg` while paused. -/
def c9AckMsg : AgentMessage :=
  { headerLength := 116, MessageType := AcknowledgeT, schemaVersion := 1,
    createdDate := some 1700000000000, SequenceNumber := 3, Flags := FlagAck,
    messageID := List.range 16, payloadDigest := [], PayloadType := PTUndefined,
    payloadLength := 0, Payload := [104, 105] }

/-- An `input_stream_data` message with a `HandshakeResponse` payload handed
to `WriteMsg` while paused. -/
def c9HsMsg : AgentMessage :=
  { headerLength := 116, MessageType := InputStreamDataT, schemaVersion := 1,
    createdDate := some 1700000000000, SequenceNumber := 5, Flags := FlagData,
    messageID := List.range 16, payloadDigest := [], PayloadType := PTHandshakeResponse,
    payloadLength := 0, Payload := [106, 107] }

/-- C9 counterexample: while publication is paused, an `acknowledge` message
passed to `WriteMsg` is neither transmitted on the WebSocket nor added to the
outbound retransmit buffer (the buffer is left exactly as it was), and the
same holds for a message carrying a `HandshakeResponse` payload; the claim
that every message passed to `WriteMsg` is buffered while paused fails for
both. -/
theorem C9_paused_counterexample :
    ((SsmDataChannel.WriteMsg c9State c9AckMsg).2.2.sent = [] ∧
     (SsmDataChannel.WriteMsg c9State c9AckMsg).2.2.outMsgBuf
       = some (NewMessageBuffer 10) ∧
     (SsmDataChannel.WriteMsg c9State c9AckMsg).2.1 = none) ∧
    ((SsmDataChannel.WriteMsg c9State c9HsMsg).2.2.sent = [] ∧
     (SsmDataChannel.WriteMsg c9State c9HsMsg).2.2.outMsgBuf
       = some (NewMessageBuffer 10) ∧
     (SsmDataChannel.WriteMsg c9State c9HsMsg).2.1 = none) := by
  exact ⟨⟨rfl, rfl, rfl⟩, ⟨rfl, rfl, rfl⟩⟩

/-- C9 (amended): while the publication-paused flag is set, `WriteMsg`
transmits nothing on the WebSocket, whatever the message; a message that is
not an `acknowledge` and does not carry a `HandshakeResponse` payload is
added to the outbound retransmit buffer with no error reported when the
insert succeeds; and an `acknowledge` message or a `HandshakeResponse`
payload is not buffered either — the retransmit buffer is left untouched and
the message is silently dropped. -/
theorem C9_paused_buffering (c : ChannelState) (msg : AgentMessage) (fr : List Nat)
    (b : MessageBuffer)
    (hsyn : c.synSent = true) (hp : c.pausePub = true)
    (hseq : 0 ≤ msg.SequenceNumber) (hmar : msg.MarshalBinary = .ok fr)
    (hob : c.outMsgBuf = some b) :
    (SsmDataChannel.WriteMsg c msg).2.2.sent = c.sent ∧
    (∀ b2 : MessageBuffer, msg.MessageType ≠ AcknowledgeT →
        msg.PayloadType ≠ PTHandshakeResponse → b.Add msg.prepare = .ok b2 →
        (SsmDataChannel.WriteMsg c msg).2.2.outMsgBuf = some b2 ∧
        (SsmDataChannel.WriteMsg c msg).2.1 = none) ∧
    (msg.MessageType = AcknowledgeT ∨ msg.PayloadType = PTHandshakeResponse →
        (SsmDataChannel.WriteMsg c msg).2.2.outMsgBuf = c.outMsgBuf ∧
        (SsmDataChannel.WriteMsg c msg).2.1 = none) := by
  rw [WriteMsg_paused_eq c msg fr hsyn hp hseq hmar]
  refine ⟨rfl, ?_, ?_⟩
  · intro b2 hmt hpt hadd
    simp only [hob, if_pos (And.intro hmt hpt), hadd]
    exact ⟨trivial, trivial⟩
  · intro hor
    have hnc : ¬(msg.MessageType ≠ AcknowledgeT ∧ msg.PayloadType ≠ PTHandshakeResponse) :=
      fun h => hor.elim (fun e => h.1 e) (fun e => h.2 e)
    simp only [hob, if_neg hnc]
    exact ⟨trivial, trivial⟩

/-- The paused state used to exercise the amended C9 theorem. -/
def c9wState : ChannelState :=
  { seqNum := 7, inSeqNum := 0, synSent := true, pausePub := true,
    handshakeCh := some true, outMsgBuf := some (NewMessageBuffer 2),
    inMsgBuf := some (NewMessageBuffer 2), sent := [], now := 1700000000000,
    uuidGen := List.range 16 }

/-- An `input_stream_data`/`Output` message written while paused. -/
def c9wMsg : AgentMessage :=
  { headerLength := 116, MessageType := InputStreamDataT, schemaVersion := 1,
    createdDate := some 1700000000000, SequenceNumber := 4, Flags := FlagData,
    messageID := List.range 16, payloadDigest := [], PayloadType := PTOutput,
    payloadLength := 0, Payload := [104] }

/-- The buffer after the paused write buffered `c9wMsg`. -/
def c9wBuf2 : MessageBuffer :=
  ((NewMessageBuffer 2).Add c9wMsg.prepare).toOption.getD (NewMessageBuffer 2)

/-- C9 witness: the amended theorem applied to a concrete paused write. -/
theorem C9_paused_buffering_witness :
    ((SsmDataChannel.WriteMsg c9wState c9wMsg).2.2.sent = c9wState.sent ∧
     (∀ b2 : MessageBuffer, c9wMsg.MessageType ≠ AcknowledgeT →
        c9wMsg.PayloadType ≠ PTHandshakeResponse →
        (NewMessageBuffer 2).Add c9wMsg.prepare = .ok b2 →
        (SsmDataChannel.WriteMsg c9wState c9wMsg).2.2.outMsgBuf = some b2 ∧
        (SsmDataChannel.WriteMsg c9wState c9wMsg).2.1 = none) ∧
     (c9wMsg.MessageType = AcknowledgeT ∨ c9wMsg.PayloadType = PTHandshakeResponse →
        (SsmDataChannel.WriteMsg c9wState c9wMsg).2.2.outMsgBuf = c9wState.outMsgBuf ∧
        (SsmDataChannel.WriteMsg c9wState c9wMsg).2.1 = none)) :=
  C9_paused_buffering c9wState c9wMsg c9wMsg.prepare.encodeBytes
    (NewMessageBuffer 2) rfl rfl (by decide) rfl rfl

/-! ### C4: the SYN write and the outbound sequence counter -/

/-- Effect of `WriteMsg` before any SYN: the message is forced to
`Flags = Syn, SequenceNumber = 0`, the outbound counter is reset to 0, the SYN
is recorded, and the forced message is transmitted (publication not paused). -/
theorem WriteMsg_first_eq (c : ChannelState) (msg : AgentMessage) (fr : List Nat)
    (hsyn : c.synSent = false) (hp : c.pausePub = false)
    (hmar : ({ msg with Flags := FlagSyn, SequenceNumber := 0 } : AgentMessage).MarshalBinary
      = .ok fr) :
    SsmDataChannel.WriteMsg c msg =
      (({ msg with Flags := FlagSyn, SequenceNumber := 0 } : AgentMessage).prepare.payloadLength,
       none,
       { c with
         seqNum := 0, synSent := true,
         outMsgBuf := match c.outMsgBuf with
           | some b =>
             if msg.MessageType ≠ AcknowledgeT ∧ msg.PayloadType ≠ PTHandshakeResponse then
               match b.Add ({ msg with
                   Flags := FlagSyn, SequenceNumber := 0 } : AgentMessage).prepare with
               | .ok b2 => some b2
               | .error _ => some b
             else some b
           | none => none,
         sent := c.sent ++
           [(fr, ({ msg with Flags := FlagSyn, SequenceNumber := 0 } : AgentMessage).prepare)] }) := by
  obtain ⟨sq, isq, syn, pp, hch, ob, ib, st, nw, ug⟩ := c
  simp only at hsyn hp
  subst hsyn
  subst hp
  unfold SsmDataChannel.WriteMsg
  simp only [if_pos (show (!false) = true from by decide)]
  rw [if_neg (show ¬(({ msg with
      Flags := FlagSyn, SequenceNumber := 0 } : AgentMessage).SequenceNumber < 0) from by simp)]
  simp only [hmar]
  cases ob with
  | none => rfl
  | some b =>
    simp only [prepare_MessageType, prepare_PayloadType]
    by_cases hcond : msg.MessageType ≠ AcknowledgeT ∧ msg.PayloadType ≠ PTHandshakeResponse
    · simp only [if_pos hcond]
      cases b.Add ({ msg with Flags := FlagSyn, SequenceNumber := 0 } : AgentMessage).prepare with
      | ok b2 => rfl
      | error e => rfl
    · simp only [if_neg hcond]
      rfl

/-- The `input_stream_data`/`Output` message `Write` builds for a payload. -/
def writeMsgOf (c : ChannelState) (p : List Nat) : AgentMessage :=
  { (NewAgentMessage { c with seqNum := c.seqNum + 1 }) with
    MessageType := InputStreamDataT, Flags := FlagData,
    PayloadType := PTOutput, Payload := p, SequenceNumber := c.seqNum + 1 }

/-- `Write` is `WriteMsg` on the incremented state and the built message. -/
theorem Write_eq (c : ChannelState) (p : List Nat) :
    SsmDataChannel.Write c p
      = SsmDataChannel.WriteMsg { c with seqNum := c.seqNum + 1 } (writeMsgOf c p) := rfl

/-- One post-SYN `Write`: exactly one frame is transmitted, carrying the next
sequence number with data flags, and the counter advances by one; all fields
not owned by the writer are preserved. -/
theorem Write_step (c : ChannelState) (p : List Nat)
    (hsyn : c.synSent = true) (hpp : c.pausePub = false)
    (hgen : c.uuidGen.length = 16) (hsq : 0 ≤ c.seqNum)
    (hlen : p.length < 4294967296) :
    ∃ fr m, (SsmDataChannel.Write c p).2.2.sent = c.sent ++ [(fr, m)] ∧
      m.SequenceNumber = c.seqNum + 1 ∧ m.Flags = FlagData ∧
      (SsmDataChannel.Write c p).2.2.seqNum = c.seqNum + 1 ∧
      (SsmDataChannel.Write c p).2.2.synSent = true ∧
      (SsmDataChannel.Write c p).2.2.pausePub = false ∧
      (SsmDataChannel.Write c p).2.2.uuidGen = c.uuidGen ∧
      (SsmDataChannel.Write c p).2.2.now = c.now ∧
      (SsmDataChannel.Write c p).2.2.inSeqNum = c.inSeqNum ∧
      (SsmDataChannel.Write c p).2.2.inMsgBuf = c.inMsgBuf := by
  rw [Write_eq c p,
      WriteMsg_notpaused_eq { c with seqNum := c.seqNum + 1 } (writeMsgOf c p)
        (writeMsgOf c p).prepare.encodeBytes hsyn hpp
        (show (0:Int) ≤ c.seqNum + 1 from by omega)
        (MarshalBinary_ok (writeMsgOf c p) Nat.le.refl
          (show (112:Nat) ≤ 116 from by decide) Nat.le.refl
          (show 10 ≤ InputStreamDataT.length from by decide)
          (Option.some_ne_none c.now) hgen hlen)]
  exact ⟨(writeMsgOf c p).prepare.encodeBytes, (writeMsgOf c p).prepare,
    rfl, rfl, rfl, rfl, hsyn, hpp, rfl, rfl, rfl, rfl⟩

/-- The first `Write` on a channel that has not sent its SYN: the transmitted
message is forced to sequence 0 with `Flags = Syn`, and the counter is reset
to 0. -/
theorem Write_first_step (c : ChannelState) (p : List Nat)
    (hsyn : c.synSent = false) (hpp : c.pausePub = false)
    (hgen : c.uuidGen.length = 16) (hlen : p.length < 4294967296) :
    ∃ fr m, (SsmDataChannel.Write c p).2.2.sent = c.sent ++ [(fr, m)] ∧
      m.SequenceNumber = 0 ∧ m.Flags = FlagSyn ∧
      (SsmDataChannel.Write c p).2.2.seqNum = 0 ∧
      (SsmDataChannel.Write c p).2.2.synSent = true ∧
      (SsmDataChannel.Write c p).2.2.pausePub = false ∧
      (SsmDataChannel.Write c p).2.2.uuidGen = c.uuidGen ∧
      (SsmDataChannel.Write c p).2.2.now = c.now ∧
      (SsmDataChannel.Write c p).2.2.inSeqNum = c.inSeqNum ∧
      (SsmDataChannel.Write c p).2.2.inMsgBuf = c.inMsgBuf := by
  rw [Write_eq c p,
      WriteMsg_first_eq { c with seqNum := c.seqNum + 1 } (writeMsgOf c p) _ hsyn hpp
        (MarshalBinary_ok _ Nat.le.refl (show (112:Nat) ≤ 116 from by decide) Nat.le.refl
          (show 10 ≤ InputStreamDataT.length from by decide)
          (Option.some_ne_none c.now) hgen hlen)]
  exact ⟨({ writeMsgOf c p with
      Flags := FlagSyn, SequenceNumber := 0 } : AgentMessage).prepare.encodeBytes,
    ({ writeMsgOf c p with Flags := FlagSyn, SequenceNumber := 0 } : AgentMessage).prepare,
    rfl, rfl, rfl, rfl, rfl, hpp, rfl, rfl, rfl, rfl⟩

/-- Unfolding the first element of a shifted integer range. -/
theorem range_map_shift (s : Int) (n : Nat) :
    (List.range (n + 1)).map (fun i : Nat => s + i)
      = s :: (List.range n).map (fun i : Nat => s + 1 + i) := by
  rw [List.range_succ_eq_map]
  simp only [List.map_cons, List.map_map, Nat.cast_zero, add_zero]
  refine congrArg (List.cons s) (List.map_congr_left ?_)
  intro i hi
  show s + ((i + 1 : Nat) : Int) = s + 1 + i
  push_cast
  ring

/-- The cast of `List.range` peeled at the head. -/
theorem range_map_cast_succ (n : Nat) :
    (List.range (n + 1)).map (fun i : Nat => (i : Int))
      = 0 :: (List.range n).map (fun i : Nat => (0:Int) + 1 + i) := by
  rw [← range_map_shift 0 n]
  refine List.map_congr_left ?_
  intro i hi
  omega

/-- Fold of post-SYN `Write`s: the transmitted sequence numbers continue the
counter contiguously with data flags, and the counter advances by the number
of payloads. -/
theorem writeAll_steady (ps : List (List Nat)) : ∀ c : ChannelState,
    c.synSent = true → c.pausePub = false → c.uuidGen.length = 16 → 0 ≤ c.seqNum →
    (∀ p ∈ ps, p.length < 4294967296) →
    (writeAll c ps).sent.map (fun e => e.2.SequenceNumber)
        = c.sent.map (fun e => e.2.SequenceNumber)
          ++ (List.range ps.length).map (fun i : Nat => c.seqNum + 1 + i) ∧
    (writeAll c ps).sent.map (fun e => e.2.Flags)
        = c.sent.map (fun e => e.2.Flags) ++ List.replicate ps.length FlagData ∧
    (writeAll c ps).seqNum = c.seqNum + ps.length := by
  induction ps with
  | nil =>
    intro c h1 h2 h3 h4 h5
    refine ⟨by simp [writeAll], by simp [writeAll], by simp [writeAll]⟩
  | cons p rest ih =>
    intro c h1 h2 h3 h4 h5
    obtain ⟨fr, m, hsent, hmsq, hmfl, hsq, hsyn2, hpp2, hug, hnow, hisq, hib⟩ :=
      Write_step c p h1 h2 h3 h4 (h5 p (List.mem_cons_self p rest))
    have hwa : writeAll c (p :: rest) = writeAll (SsmDataChannel.Write c p).2.2 rest := rfl
    obtain ⟨ih1, ih2, ih3⟩ := ih (SsmDataChannel.Write c p).2.2 hsyn2 hpp2
      (by rw [hug]; exact h3) (by rw [hsq]; omega)
      (fun q hq => h5 q (List.mem_cons_of_mem p hq))
    rw [hwa]
    refine ⟨?_, ?_, ?_⟩
    · rw [ih1, hsent, hsq, List.map_append]
      simp only [List.map_cons, List.map_nil, hmsq]
      rw [List.append_assoc, List.singleton_append,
          show (p :: rest).length = rest.length + 1 from rfl,
          range_map_shift (c.seqNum + 1) rest.length]
    · rw [ih2, hsent, List.map_append]
      simp only [List.map_cons, List.map_nil, hmfl]
      rw [List.append_assoc, List.singleton_append,
          show (p :: rest).length = rest.length + 1 from rfl,
          List.replicate_succ]
    · rw [ih3, hsq]
      simp only [List.length_cons]
      push_cast
      ring

/-- C4: from a freshly opened channel, any nonempty sequence of `Write`s
transmits messages whose sequence numbers are exactly 0, 1, 2, ... in order,
the first carrying `Flags = Syn` (the SYN that reset the counter to 0) and the
rest data flags, and afterwards the outbound counter equals the last
transmitted sequence number, one less than the number of writes: the counter
strictly increases across successful sends. -/
theorem C4_syn_sequencing (now : Int) (gen : List Nat) (ps : List (List Nat))
    (hgen : gen.length = 16) (hps : ∀ p ∈ ps, p.length < 4294967296)
    (hne : ps ≠ []) :
    (writeAll (openedChannel now gen) ps).sent.map (fun e => e.2.SequenceNumber)
        = (List.range ps.length).map (fun i : Nat => (i : Int)) ∧
    (writeAll (openedChannel now gen) ps).sent.map (fun e => e.2.Flags)
        = FlagSyn :: List.replicate (ps.length - 1) FlagData ∧
    (writeAll (openedChannel now gen) ps).seqNum = (ps.length : Int) - 1 := by
  cases ps with
  | nil => exact absurd rfl hne
  | cons p rest =>
    obtain ⟨fr, m, hsent, hmsq, hmfl, hsq, hsyn2, hpp2, hug, hnow, hisq, hib⟩ :=
      Write_first_step (openedChannel now gen) p rfl rfl hgen
        (hps p (List.mem_cons_self p rest))
    have hwa : writeAll (openedChannel now gen) (p :: rest)
        = writeAll (SsmDataChannel.Write (openedChannel now gen) p).2.2 rest := rfl
    obtain ⟨s1, s2, s3⟩ := writeAll_steady rest
      (SsmDataChannel.Write (openedChannel now gen) p).2.2 hsyn2 hpp2
      (by rw [hug]; exact hgen) hsq.ge
      (fun q hq => hps q (List.mem_cons_of_mem p hq))
    rw [hwa]
    refine ⟨?_, ?_, ?_⟩
    · rw [s1, hsent, List.map_append, hsq,
          show (openedChannel now gen).sent = [] from rfl]
      simp only [List.map_cons, List.map_nil, List.nil_append, hmsq]
      rw [List.singleton_append, show (p :: rest).length = rest.length + 1 from rfl,
          range_map_cast_succ rest.length]
    · rw [s2, hsent, List.map_append,
          show (openedChannel now gen).sent = [] from rfl]
      simp only [List.map_cons, List.map_nil, List.nil_append, hmfl]
      rw [List.singleton_append, show (p :: rest).length - 1 = rest.length from rfl]
    · rw [s3, hsq]
      simp only [List.length_cons]
      push_cast
      ring

/-- C4 witness: two writes on a fresh channel transmit sequence numbers 0 then
1, SYN then data flags, leaving the counter at 1. -/
theorem C4_syn_sequencing_witness :
    (writeAll (openedChannel 0 (List.range 16)) [[104], [105]]).sent.map
        (fun e => e.2.SequenceNumber) = (List.range 2).map (fun i : Nat => (i : Int)) ∧
    (writeAll (openedChannel 0 (List.range 16)) [[104], [105]]).sent.map
        (fun e => e.2.Flags) = FlagSyn :: List.replicate 1 FlagData ∧
    (writeAll (openedChannel 0 (List.range 16)) [[104], [105]]).seqNum
        = ((2:Nat) : Int) - 1 :=
  C4_syn_sequencing 0 (List.range 16) [[104], [105]] rfl (by decide) (by decide)

/-! ### C3: the acknowledge policy of `HandleMsg` -/

/-- Trivial external codecs: every JSON parse fails.  The `Output` and
acknowledge paths never consult them. -/
def extNull : ExternalCodecs :=
  { unmarshalHandshakeReq := fun _ => .error .jsonError,
    marshalHandshakeResp := fun _ => [],
    unmarshalChannelClosed := fun _ => .error .jsonError }

/-- The acknowledge message `sendAcknowledgeMessage` builds for an inbound
message. -/
def ackMsgOf (c : ChannelState) (m : AgentMessage) : AgentMessage :=
  { (NewAgentMessage c) with
    MessageType := AcknowledgeT,
    SequenceNumber := m.SequenceNumber, Flags := FlagAck,
    PayloadType := PTUndefined,
    Payload := jsonAck m.MessageType m.messageID m.SequenceNumber }

/-- `sendAcknowledgeMessage` is `WriteMsg` on the built acknowledge. -/
theorem sendAck_eq (c : ChannelState) (m : AgentMessage) :
    SsmDataChannel.sendAcknowledgeMessage c m
      = ((SsmDataChannel.WriteMsg c (ackMsgOf c m)).2.1,
         (SsmDataChannel.WriteMsg c (ackMsgOf c m)).2.2) := rfl

/-- The acknowledge-and-drain tail of `HandleMsg` on a running channel with an
inbound buffer: exactly one acknowledge frame is appended to the wire trace,
no error is returned, and the inbound buffer drains from the expected
sequence number. -/
theorem handleMsgTail_spec (c : ChannelState) (m : AgentMessage) (b : MessageBuffer)
    (hsyn : c.synSent = true) (hp : c.pausePub = false) (hgen : c.uuidGen.length = 16)
    (hseq : 0 ≤ m.SequenceNumber) (hmt32 : m.MessageType.length ≤ 32)
    (hmid : m.messageID.length = 16)
    (hs1 : -9223372036854775808 ≤ m.SequenceNumber)
    (hs2 : m.SequenceNumber < 9223372036854775808)
    (hib : c.inMsgBuf = some b) :
    SsmDataChannel.handleMsgTail c m =
      ⟨(drainFuel (b.seqMap.length + 1) c.inSeqNum b).1, none,
       { c with
         sent := c.sent ++ [((ackMsgOf c m).prepare.encodeBytes, (ackMsgOf c m).prepare)],
         inSeqNum := (drainFuel (b.seqMap.length + 1) c.inSeqNum b).2.1,
         inMsgBuf := some (drainFuel (b.seqMap.length + 1) c.inSeqNum b).2.2 }⟩ := by
  have hmar : (ackMsgOf c m).MarshalBinary = .ok (ackMsgOf c m).prepare.encodeBytes :=
    MarshalBinary_ok _ Nat.le.refl (show (112:Nat) ≤ 116 from by decide) Nat.le.refl
      (show 10 ≤ AcknowledgeT.length from by decide) (Option.some_ne_none c.now) hgen
      (jsonAck_length_lt m.MessageType m.messageID m.SequenceNumber hmt32 hmid hs1 hs2)
  have hnotack : ¬((ackMsgOf c m).MessageType ≠ AcknowledgeT ∧
      (ackMsgOf c m).PayloadType ≠ PTHandshakeResponse) := fun h => h.1 rfl
  have hw := WriteMsg_notpaused_eq c (ackMsgOf c m) (ackMsgOf c m).prepare.encodeBytes
    hsyn hp hseq hmar
  unfold SsmDataChannel.handleMsgTail
  rw [sendAck_eq, hw]
  simp only [if_neg hnotack]
  unfold SsmDataChannel.processInboundQueue
  simp only [hib]
  cases hob : c.outMsgBuf with
  | none => rfl
  | some b0 => rfl

/-- C3 (amended): on a running channel with an inbound reorder buffer, a fresh
`output_stream_data`/`Output` message that is accepted by the buffer is
acknowledged by exactly one outbound `acknowledge` frame whose JSON payload
echoes the inbound type, id and sequence number; a duplicate (sequence number
below the expected inbound counter) is dropped with no acknowledge, no error
and no state change; and a `channel_closed` message returns with the state
(hence the wire trace) unchanged, so it too is never acknowledged. -/
theorem C3_ack_policy (ext : ExternalCodecs) (c : ChannelState) (data : List Nat)
    (m : AgentMessage) (b : MessageBuffer)
    (hdec : AgentMessage.UnmarshalBinary data = .ok m)
    (hib : c.inMsgBuf = some b) (hsyn : c.synSent = true) (hp : c.pausePub = false)
    (hgen : c.uuidGen.length = 16) (hin : 0 ≤ c.inSeqNum) :
    (m.MessageType = OutputStreamDataT → m.PayloadType = PTOutput →
        m.SequenceNumber < c.inSeqNum →
        SsmDataChannel.HandleMsg ext c data = ⟨[], none, c⟩) ∧
    (∀ b2 : MessageBuffer, m.MessageType = OutputStreamDataT →
        m.PayloadType = PTOutput →
        ¬ m.SequenceNumber < c.inSeqNum → b.Add m = .ok b2 →
        ∃ fr ack, (SsmDataChannel.HandleMsg ext c data).state.sent
            = c.sent ++ [(fr, ack)] ∧
          ack.MessageType = AcknowledgeT ∧
          ack.Payload = jsonAck m.MessageType m.messageID m.SequenceNumber ∧
          ack.SequenceNumber = m.SequenceNumber ∧
          (SsmDataChannel.HandleMsg ext c data).err = none) ∧
    (m.MessageType = ChannelClosedT →
        (SsmDataChannel.HandleMsg ext c data).state = c) := by
  obtain ⟨hmid16, hmt10, hmt32, hsq1, hsq2, hcd⟩ := UnmarshalBinary_ok_shape data m hdec
  have hred : ∀ (hmt : m.MessageType = OutputStreamDataT)
      (hpt : m.PayloadType = PTOutput), SsmDataChannel.HandleMsg ext c data =
      (if m.SequenceNumber < c.inSeqNum then ⟨[], none, c⟩
       else match b.Add m with
         | .error e => ⟨[], some e, c⟩
         | .ok b2 => SsmDataChannel.handleMsgTail { c with inMsgBuf := some b2 } m) := by
    intro hmt hpt
    unfold SsmDataChannel.HandleMsg
    simp only [hdec, hmt, hpt, hib]
    rw [if_neg (show ¬(OutputStreamDataT = AcknowledgeT) from by decide),
        if_neg (show ¬(OutputStreamDataT = PausePublicationT) from by decide),
        if_neg (show ¬(OutputStreamDataT = StartPublicationT) from by decide),
        if_pos True.intro, if_pos True.intro]
  refine ⟨?_, ?_, ?_⟩
  · intro hmt hpt hdup
    rw [hred hmt hpt, if_pos hdup]
  · intro b2 hmt hpt hdup hadd
    rw [hred hmt hpt, if_neg hdup]
    simp only [hadd]
    rw [handleMsgTail_spec { c with inMsgBuf := some b2 } m b2 hsyn hp hgen
      (by omega) hmt32 hmid16 hsq1 hsq2 rfl]
    exact ⟨(ackMsgOf { c with inMsgBuf := some b2 } m).prepare.encodeBytes,
      (ackMsgOf { c with inMsgBuf := some b2 } m).prepare, rfl, rfl, rfl, rfl, rfl⟩
  · intro hcc
    unfold SsmDataChannel.HandleMsg
    simp only [hdec, hcc]
    rw [if_neg (show ¬(ChannelClosedT = AcknowledgeT) from by decide),
        if_neg (show ¬(ChannelClosedT = PausePublicationT) from by decide),
        if_neg (show ¬(ChannelClosedT = StartPublicationT) from by decide),
        if_neg (show ¬(ChannelClosedT = OutputStreamDataT) from by decide),
        if_pos True.intro]
    cases ext.unmarshalChannelClosed m.Payload with
    | error e => rfl
    | ok p => rfl

/-- A buffered `Output` message whose sequence number 3 is below the expected
inbound counter 5 of `c3DupState`. -/
def c3DupMsg : AgentMessage :=
  { headerLength := 116, MessageType := OutputStreamDataT, schemaVersion := 1,
    createdDate := some 1700000000000, SequenceNumber := 3, Flags := FlagData,
    messageID := List.range 16, payloadDigest := [], PayloadType := PTOutput,
    payloadLength := 0, Payload := [120] }

/-- The encoded frame of `c3DupMsg`. -/
def c3DupFrame : List Nat := c3DupMsg.MarshalBinary.toOption.getD []

/-- A running channel already expecting inbound sequence 5. -/
def c3DupState : ChannelState :=
  { seqNum := 9, inSeqNum := 5, synSent := true, pausePub := false,
    handshakeCh := some true, outMsgBuf := some (NewMessageBuffer 50),
    inMsgBuf := some (NewMessageBuffer 50), sent := [], now := 1700000000000,
    uuidGen := List.range 16 }

/-- C3 counterexample: a duplicate `output_stream_data`/`Output` message
(sequence 3 below the expected inbound sequence 5) is processed by `HandleMsg`
with no outbound acknowledge at all — the wire trace and the whole state are
unchanged — refuting the claim that every non-acknowledge inbound message
gets exactly one acknowledge. -/
theorem C3_ack_policy_counterexample :
    SsmDataChannel.HandleMsg extNull c3DupState c3DupFrame
      = ⟨[], none, c3DupState⟩ := by
  rfl

/-- A fresh `Output` message with sequence 0 for the C3 witness. -/
def c3wMsg : AgentMessage :=
  { headerLength := 116, MessageType := OutputStreamDataT, schemaVersion := 1,
    createdDate := some 1700000000000, SequenceNumber := 0, Flags := FlagData,
    messageID := List.range 16, payloadDigest := [], PayloadType := PTOutput,
    payloadLength := 0, Payload := [121] }

/-- The encoded frame of `c3wMsg`. -/
def c3wFrame : List Nat := c3wMsg.MarshalBinary.toOption.getD []

/-- A running channel expecting inbound sequence 0. -/
def c3wState : ChannelState :=
  { seqNum := 0, inSeqNum := 0, synSent := true, pausePub := false,
    handshakeCh := some false, outMsgBuf := some (NewMessageBuffer 50),
    inMsgBuf := some (NewMessageBuffer 50), sent := [], now := 1700000000000,
    uuidGen := List.range 16 }

/-- The message `HandleMsg` decodes from `c3wFrame`. -/
def c3wDecoded : AgentMessage :=
  (AgentMessage.UnmarshalBinary c3wFrame).toOption.getD default

/-- C3 witness: the amended theorem applied to a concrete running channel and
a concrete fresh `Output` frame. -/
theorem C3_ack_policy_witness :
    ((c3wDecoded.MessageType = OutputStreamDataT → c3wDecoded.PayloadType = PTOutput →
        c3wDecoded.SequenceNumber < c3wState.inSeqNum →
        SsmDataChannel.HandleMsg extNull c3wState c3wFrame = ⟨[], none, c3wState⟩) ∧
     (∀ b2 : MessageBuffer, c3wDecoded.MessageType = OutputStreamDataT →
        c3wDecoded.PayloadType = PTOutput →
        ¬ c3wDecoded.SequenceNumber < c3wState.inSeqNum →
        (NewMessageBuffer 50).Add c3wDecoded = .ok b2 →
        ∃ fr ack, (SsmDataChannel.HandleMsg extNull c3wState c3wFrame).state.sent
            = c3wState.sent ++ [(fr, ack)] ∧
          ack.MessageType = AcknowledgeT ∧
          ack.Payload = jsonAck c3wDecoded.MessageType c3wDecoded.messageID
              c3wDecoded.SequenceNumber ∧
          ack.SequenceNumber = c3wDecoded.SequenceNumber ∧
          (SsmDataChannel.HandleMsg extNull c3wState c3wFrame).err = none) ∧
     (c3wDecoded.MessageType = ChannelClosedT →
        (SsmDataChannel.HandleMsg extNull c3wState c3wFrame).state = c3wState)) :=
  C3_ack_policy extNull c3wState c3wFrame c3wDecoded (NewMessageBuffer 50)
    (by rfl) rfl rfl rfl rfl (by decide)

/-! ### C2: the inbound reorder buffer -/

/-- Unfolding of `Get`. -/
theorem Get_eq (b : MessageBuffer) (k : Int) :
    b.Get k = match b.seqMap.lookup k with
      | some id => (b.items.find? (fun p => p.1 == id)).map (fun p => p.2)
      | none => none := rfl

/-- Erasing one id leaves lookups of other ids untouched. -/
theorem find?_eraseP_ne (l : List (Nat × AgentMessage)) (i j : Nat) (hne : i ≠ j) :
    (l.eraseP (fun p => p.1 == i)).find? (fun p => p.1 == j)
      = l.find? (fun p => p.1 == j) := by
  induction l with
  | nil => rfl
  | cons a t ih =>
    by_cases hai : a.1 = i
    · have h1 : (a.1 == i) = true := by simpa using hai
      have h2 : (a.1 == j) = false := by simpa using (show a.1 ≠ j from by omega)
      simp only [List.eraseP_cons, h1, cond_true]
      rw [List.find?_cons, h2]
    · have h1 : (a.1 == i) = false := by simpa using hai
      simp only [List.eraseP_cons, h1, cond_false]
      by_cases haj : a.1 = j
      · have h2 : (a.1 == j) = true := by simpa using haj
        rw [List.find?_cons, List.find?_cons, h2]
      · have h2 : (a.1 == j) = false := by simpa using haj
        rw [List.find?_cons, List.find?_cons, h2]
        exact ih

/-- Deleting a key makes its lookup fail. -/
theorem lookup_filter_self (l : List (Int × Nat)) (s : Int) :
    (l.filter (fun p => !(p.1 == s))).lookup s = none := by
  cases hlk : (l.filter (fun p => !(p.1 == s))).lookup s with
  | none => rfl
  | some id =>
    have hp := (List.mem_filter.mp (lookup_mem hlk)).2
    simp at hp

/-- Deleting a present key strictly shrinks the map. -/
theorem length_filter_lt_of_lookup (l : List (Int × Nat)) (s : Int) (id : Nat)
    (h : l.lookup s = some id) :
    (l.filter (fun p => !(p.1 == s))).length < l.length := by
  rw [List.length_filter_lt_length_iff_exists]
  exact ⟨(s, id), lookup_mem h, by simp⟩

/-- Two bindings of different keys in a value-distinct map have different
values. -/
theorem pairwise_values_ne {l : List (Int × Nat)}
    (hpw : l.Pairwise (fun p q => p.2 ≠ q.2))
    {k1 k2 : Int} {v1 v2 : Nat} (h1 : (k1, v1) ∈ l) (h2 : (k2, v2) ∈ l)
    (hk : k1 ≠ k2) : v1 ≠ v2 := by
  have hsym : Symmetric (fun p q : Int × Nat => p.2 ≠ q.2) :=
    fun a b h => fun e => h e.symm
  exact hpw.forall hsym h1 h2 (fun he => hk (congrArg Prod.fst he))

/-- The inbound buffer invariant relative to a payload environment `P`: well
formed, value-distinct index, and every indexed entry is a message stored
under its own sequence number, carrying `P` of it, at or above the low-water
mark. -/
def GoodBuf (P : Int → List Nat) (lo : Int) (b : MessageBuffer) : Prop :=
  WFBuf b ∧ b.seqMap.Pairwise (fun p q => p.2 ≠ q.2) ∧
  ∀ k id, b.seqMap.lookup k = some id →
    ∃ msg, b.Get k = some msg ∧ msg.SequenceNumber = k ∧ msg.Payload = P k ∧ lo ≤ k

/-- An empty buffer satisfies the invariant. -/
theorem GoodBuf_new (P : Int → List Nat) (lo : Int) (N : Nat) :
    GoodBuf P lo (NewMessageBuffer N) := by
  refine ⟨WFBuf_new N, List.Pairwise.nil, ?_⟩
  intro k id h
  simp [NewMessageBuffer, List.lookup] at h

/-- A successful `Add` of an in-range message preserves the invariant. -/
theorem GoodBuf_Add (P : Int → List Nat) (lo : Int) (b b2 : MessageBuffer)
    (msg : AgentMessage) (hg : GoodBuf P lo b)
    (hseq : lo ≤ msg.SequenceNumber) (hP : msg.Payload = P msg.SequenceNumber)
    (hadd : b.Add msg = .ok b2) : GoodBuf P lo b2 := by
  obtain ⟨hwf, hpw, hmap⟩ := hg
  have hadd' := hadd
  unfold MessageBuffer.Add at hadd'
  split_ifs at hadd' with hcap
  have hb2 : b2 = { b with
      items := b.items ++ [(b.nextId, msg)],
      seqMap := (msg.SequenceNumber, b.nextId) ::
        b.seqMap.filter (fun p => !(p.1 == msg.SequenceNumber)),
      nextId := b.nextId + 1 } := by
    cases hadd'
    rfl
  subst hb2
  refine ⟨WFBuf_Add b _ msg hwf hadd, ?_, ?_⟩
  · refine List.Pairwise.cons ?_ (hpw.sublist (List.filter_sublist _))
    intro q hq
    have hqv := hwf.2 q (List.mem_of_mem_filter hq)
    show b.nextId ≠ q.2
    omega
  · intro k id hlk
    by_cases hk : k = msg.SequenceNumber
    · subst hk
      rw [lookup_cons_self] at hlk
      cases hlk
      refine ⟨msg, ?_, rfl, hP, hseq⟩
      exact Get_Add_self b _ msg hwf (by unfold MessageBuffer.Add; rw [if_neg hcap])
    · rw [lookup_cons_ne _ _ _ _ hk, lookup_filter_ne _ _ _ hk] at hlk
      obtain ⟨msg', hget, hs2, hp2, hlo⟩ := hmap k id hlk
      refine ⟨msg', ?_, hs2, hp2, hlo⟩
      rw [Get_Add_ne b _ msg k hwf (by unfold MessageBuffer.Add; rw [if_neg hcap]) hk]
      exact hget

/-- `Remove` at a present key, explicitly. -/
theorem Remove_eq_of_lookup (b : MessageBuffer) (s : Int) (id : Nat)
    (h : b.seqMap.lookup s = some id) :
    b.Remove s = { b with
      items := b.items.eraseP (fun p => p.1 == id),
      seqMap := b.seqMap.filter (fun p => !(p.1 == s)) } := by
  unfold MessageBuffer.Remove
  rw [h]

/-- Removing the entry at the low-water mark preserves the invariant one
higher. -/
theorem GoodBuf_Remove (P : Int → List Nat) (s : Int) (b : MessageBuffer) (id : Nat)
    (hg : GoodBuf P s b) (hlk : b.seqMap.lookup s = some id) :
    GoodBuf P (s + 1) (b.Remove s) := by
  obtain ⟨hwf, hpw, hmap⟩ := hg
  rw [Remove_eq_of_lookup b s id hlk]
  refine ⟨⟨?_, ?_⟩, ?_, ?_⟩
  · intro q hq
    exact hwf.1 q ((List.eraseP_sublist _).subset hq)
  · intro q hq
    exact hwf.2 q (List.mem_of_mem_filter hq)
  · exact hpw.sublist (List.filter_sublist _)
  · intro k id' hlk'
    have hks : k ≠ s := by
      intro he
      rw [show ({ b with
          items := b.items.eraseP (fun p => p.1 == id),
          seqMap := b.seqMap.filter (fun p => !(p.1 == s)) } : MessageBuffer).seqMap
            = b.seqMap.filter (fun p => !(p.1 == s)) from rfl,
          he, lookup_filter_self] at hlk'
      cases hlk'
    rw [show ({ b with
        items := b.items.eraseP (fun p => p.1 == id),
        seqMap := b.seqMap.filter (fun p => !(p.1 == s)) } : MessageBuffer).seqMap
          = b.seqMap.filter (fun p => !(p.1 == s)) from rfl,
        lookup_filter_ne _ _ _ hks] at hlk'
    obtain ⟨msg, hget, hs2, hp2, hlo⟩ := hmap k id' hlk'
    have hid : id' ≠ id := pairwise_values_ne hpw (lookup_mem hlk') (lookup_mem hlk) hks
    refine ⟨msg, ?_, hs2, hp2, by omega⟩
    simp only [Get_eq] at hget ⊢
    rw [lookup_filter_ne _ _ _ hks]
    simp only [hlk']
    simp only [hlk'] at hget
    rw [find?_eraseP_ne b.items id id' (Ne.symm hid)]
    exact hget

/-- Splitting a contiguous payload run at its head. -/
theorem flatten_range_shift (P : Int → List Nat) (s : Int) (k : Nat) :
    P s ++ ((List.range k).map (fun i : Nat => P (s + 1 + i))).flatten
      = ((List.range (k + 1)).map (fun i : Nat => P (s + i))).flatten := by
  rw [List.range_succ_eq_map]
  simp only [List.map_cons, List.map_map, List.flatten_cons, Nat.cast_zero, add_zero]
  congr 1
  refine congrArg List.flatten (List.map_congr_left ?_)
  intro i hi
  show P (s + 1 + i) = P (s + ((i + 1 : Nat) : Int))
  congr 1
  push_cast
  ring

/-- `drainFuel` with enough fuel delivers exactly the contiguous run of
payloads starting at the expected sequence, advances the counter by its
length, and preserves the invariant at the new counter. -/
theorem drainFuel_spec (P : Int → List Nat) :
    ∀ (fuel : Nat) (s : Int) (b : MessageBuffer), GoodBuf P s b →
      b.seqMap.length < fuel →
      ∃ (k : Nat) (b' : MessageBuffer),
        drainFuel fuel s b
          = (((List.range k).map (fun i : Nat => P (s + i))).flatten, s + k, b') ∧
        GoodBuf P (s + k) b' := by
  intro fuel
  induction fuel with
  | zero =>
    intro s b hg hlt
    omega
  | succ fuel ih =>
    intro s b hg hlt
    cases hGet : b.Get s with
    | none =>
      refine ⟨0, b, ?_, by simpa using hg⟩
      show drainFuel (fuel + 1) s b = _
      unfold drainFuel
      rw [hGet]
      simp
    | some msg =>
      have hlkS : ∃ id, b.seqMap.lookup s = some id := by
        rw [Get_eq] at hGet
        cases hlk : b.seqMap.lookup s with
        | none => rw [hlk] at hGet; cases hGet
        | some id => exact ⟨id, rfl⟩
      obtain ⟨id, hlk⟩ := hlkS
      obtain ⟨msg', hget', hseq', hP', hlo'⟩ := hg.2.2 s id hlk
      have hmsg : msg' = msg := by
        rw [hGet] at hget'
        cases hget'
        rfl
      subst hmsg
      have hg2 := GoodBuf_Remove P s b id hg hlk
      have hlen2 : (b.Remove s).seqMap.length < fuel := by
        have hd := length_filter_lt_of_lookup b.seqMap s id hlk
        rw [Remove_eq_of_lookup b s id hlk]
        show (b.seqMap.filter (fun p => !(p.1 == s))).length < fuel
        omega
      obtain ⟨k, b', hdr, hg'⟩ := ih (s + 1) (b.Remove s) hg2 hlen2
      refine ⟨k + 1, b', ?_, ?_⟩
      · show drainFuel (fuel + 1) s b = _
        unfold drainFuel
        rw [hGet]
        simp only [hseq']
        rw [hdr, hP']
        refine congrArg₂ Prod.mk ?_ (congrArg₂ Prod.mk ?_ rfl)
        · exact flatten_range_shift P s k
        · push_cast
          ring
      · have hc : s + ((k + 1 : Nat) : Int) = (s + 1) + k := by
          push_cast
          ring
        rw [hc]
        exact hg'

/-- `HandleMsg` on a decoded `output_stream_data`/`Output` message with an
inbound buffer: duplicate check, buffer insert, then acknowledge-and-drain. -/
theorem HandleMsg_output_eq (ext : ExternalCodecs) (c : ChannelState) (data : List Nat)
    (m : AgentMessage) (b : MessageBuffer)
    (hdec : AgentMessage.UnmarshalBinary data = .ok m)
    (hmt : m.MessageType = OutputStreamDataT) (hpt : m.PayloadType = PTOutput)
    (hib : c.inMsgBuf = some b) :
    SsmDataChannel.HandleMsg ext c data =
      (if m.SequenceNumber < c.inSeqNum then ⟨[], none, c⟩
       else match b.Add m with
         | .error e => ⟨[], some e, c⟩
         | .ok b2 => SsmDataChannel.handleMsgTail { c with inMsgBuf := some b2 } m) := by
  unfold SsmDataChannel.HandleMsg
  simp only [hdec, hmt, hpt, hib]
  rw [if_neg (show ¬(OutputStreamDataT = AcknowledgeT) from by decide),
      if_neg (show ¬(OutputStreamDataT = PausePublicationT) from by decide),
      if_neg (show ¬(OutputStreamDataT = StartPublicationT) from by decide),
      if_pos True.intro, if_pos True.intro]

/-- The channel-level inbound invariant: running, unpaused, sane UUID source,
non-negative expected sequence, and an inbound buffer satisfying `GoodBuf` at
the expected sequence. -/
def InvC (P : Int → List Nat) (c : ChannelState) : Prop :=
  c.synSent = true ∧ c.pausePub = false ∧ c.uuidGen.length = 16 ∧ 0 ≤ c.inSeqNum ∧
  ∃ b, c.inMsgBuf = some b ∧ GoodBuf P c.inSeqNum b

/-- One `HandleMsg` step on an `Output` frame whose payload matches the
environment: the caller receives exactly the contiguous run of environment
payloads starting at the expected inbound sequence, which advances by the run
length, and the invariant is preserved. -/
theorem HandleMsg_output_step (ext : ExternalCodecs) (P : Int → List Nat)
    (c : ChannelState) (data : List Nat) (m : AgentMessage)
    (hdec : AgentMessage.UnmarshalBinary data = .ok m)
    (hmt : m.MessageType = OutputStreamDataT) (hpt : m.PayloadType = PTOutput)
    (hP : m.Payload = P m.SequenceNumber) (hms : 0 ≤ m.SequenceNumber)
    (hinv : InvC P c) :
    ∃ k : Nat, (SsmDataChannel.HandleMsg ext c data).payload
        = ((List.range k).map (fun i : Nat => P (c.inSeqNum + i))).flatten ∧
      (SsmDataChannel.HandleMsg ext c data).state.inSeqNum = c.inSeqNum + k ∧
      InvC P (SsmDataChannel.HandleMsg ext c data).state := by
  obtain ⟨hsyn, hp, hgen, hin, b, hib, hgb⟩ := hinv
  obtain ⟨hmid16, hmt10, hmt32, hsq1, hsq2, hcd⟩ := UnmarshalBinary_ok_shape data m hdec
  rw [HandleMsg_output_eq ext c data m b hdec hmt hpt hib]
  by_cases hdup : m.SequenceNumber < c.inSeqNum
  · rw [if_pos hdup]
    refine ⟨0, by simp, by simp, hsyn, hp, hgen, hin, b, hib, hgb⟩
  · rw [if_neg hdup]
    cases hadd : b.Add m with
    | error e =>
      refine ⟨0, by simp, by simp, hsyn, hp, hgen, hin, b, hib, hgb⟩
    | ok b2 =>
      have hgb2 : GoodBuf P c.inSeqNum b2 :=
        GoodBuf_Add P c.inSeqNum b b2 m hgb (by omega) hP hadd
      simp only []
      rw [handleMsgTail_spec { c with inMsgBuf := some b2 } m b2 hsyn hp hgen hms
        hmt32 hmid16 hsq1 hsq2 rfl]
      simp only [show ({ c with inMsgBuf := some b2 } : ChannelState).inSeqNum
        = c.inSeqNum from rfl]
      obtain ⟨k, b', hdr, hg'⟩ :=
        drainFuel_spec P (b2.seqMap.length + 1) c.inSeqNum b2 hgb2 (Nat.lt_succ_self _)
      refine ⟨k, ?_, ?_, hsyn, hp, hgen, ?_, b', ?_, ?_⟩
      · show (drainFuel (b2.seqMap.length + 1) c.inSeqNum b2).1 = _
        rw [hdr]
      · show (drainFuel (b2.seqMap.length + 1) c.inSeqNum b2).2.1 = c.inSeqNum + (k:Int)
        rw [hdr]
      · show 0 ≤ (drainFuel (b2.seqMap.length + 1) c.inSeqNum b2).2.1
        rw [hdr]
        show 0 ≤ c.inSeqNum + (k:Int)
        omega
      · show some (drainFuel (b2.seqMap.length + 1) c.inSeqNum b2).2.2 = some b'
        rw [hdr]
      · show GoodBuf P (drainFuel (b2.seqMap.length + 1) c.inSeqNum b2).2.1 b'
        rw [hdr]
        exact hg'

/-- `handleRun` with a non-empty accumulator. -/
theorem handleRun_acc (ext : ExternalCodecs) (fs : List (List Nat)) :
    ∀ (c : ChannelState) (p : List Nat),
      fs.foldl (fun acc f =>
        let r := SsmDataChannel.HandleMsg ext acc.2 f
        (acc.1 ++ r.payload, r.state)) (p, c)
      = (p ++ (fs.foldl (fun acc f =>
          let r := SsmDataChannel.HandleMsg ext acc.2 f
          (acc.1 ++ r.payload, r.state)) ([], c)).1,
         (fs.foldl (fun acc f =>
          let r := SsmDataChannel.HandleMsg ext acc.2 f
          (acc.1 ++ r.payload, r.state)) ([], c)).2) := by
  induction fs with
  | nil =>
    intro c p
    simp
  | cons f t ih =>
    intro c p
    simp only [List.foldl_cons, List.nil_append]
    rw [ih ((SsmDataChannel.HandleMsg ext c f).state)
          (p ++ (SsmDataChannel.HandleMsg ext c f).payload),
        ih ((SsmDataChannel.HandleMsg ext c f).state)
          ((SsmDataChannel.HandleMsg ext c f).payload),
        List.append_assoc]

/-- Payload of a `handleRun` step. -/
theorem handleRun_cons_fst (ext : ExternalCodecs) (c : ChannelState) (f : List Nat)
    (t : List (List Nat)) :
    (handleRun ext c (f :: t)).1
      = (SsmDataChannel.HandleMsg ext c f).payload
        ++ (handleRun ext (SsmDataChannel.HandleMsg ext c f).state t).1 := by
  unfold handleRun
  simp only [List.foldl_cons, List.nil_append]
  rw [handleRun_acc ext t ((SsmDataChannel.HandleMsg ext c f).state)
      ((SsmDataChannel.HandleMsg ext c f).payload)]

/-- State of a `handleRun` step. -/
theorem handleRun_cons_snd (ext : ExternalCodecs) (c : ChannelState) (f : List Nat)
    (t : List (List Nat)) :
    (handleRun ext c (f :: t)).2
      = (handleRun ext (SsmDataChannel.HandleMsg ext c f).state t).2 := by
  unfold handleRun
  simp only [List.foldl_cons, List.nil_append]
  rw [handleRun_acc ext t ((SsmDataChannel.HandleMsg ext c f).state)
      ((SsmDataChannel.HandleMsg ext c f).payload)]

/-- Concatenating two adjacent contiguous payload runs. -/
theorem flatten_range_add (P : Int → List Nat) (s : Int) (k1 k2 : Nat) :
    ((List.range k1).map (fun i : Nat => P (s + i))).flatten
      ++ ((List.range k2).map (fun i : Nat => P (s + k1 + i))).flatten
    = ((List.range (k1 + k2)).map (fun i : Nat => P (s + i))).flatten := by
  rw [List.range_add, List.map_append, List.flatten_append, List.map_map]
  congr 1
  refine congrArg List.flatten (List.map_congr_left ?_)
  intro i hi
  show P (s + k1 + i) = P (s + ((k1 + i : Nat) : Int))
  congr 1
  push_cast
  ring

/-- Every prefix of `Output` frames drawn from the environment delivers the
contiguous run of environment payloads starting at the initial expected
sequence, and advances the counter by exactly the number delivered. -/
theorem handleRun_inv (ext : ExternalCodecs) (P : Int → List Nat)
    (frames : List (List Nat)) :
    ∀ c : ChannelState, InvC P c →
      (∀ f ∈ frames, ∃ m, AgentMessage.UnmarshalBinary f = .ok m ∧
          m.MessageType = OutputStreamDataT ∧ m.PayloadType = PTOutput ∧
          m.Payload = P m.SequenceNumber ∧ 0 ≤ m.SequenceNumber) →
      ∃ k : Nat, (handleRun ext c frames).1
          = ((List.range k).map (fun i : Nat => P (c.inSeqNum + i))).flatten ∧
        (handleRun ext c frames).2.inSeqNum = c.inSeqNum + k ∧
        InvC P (handleRun ext c frames).2 := by
  induction frames with
  | nil =>
    intro c hc hf
    exact ⟨0, by simp [handleRun], by simp [handleRun], by simpa [handleRun] using hc⟩
  | cons f t ih =>
    intro c hc hf
    obtain ⟨m, hdec, hmt, hpt, hP, hms⟩ := hf f (List.mem_cons_self f t)
    obtain ⟨k1, h1, h2, hc2⟩ := HandleMsg_output_step ext P c f m hdec hmt hpt hP hms hc
    obtain ⟨k2, g1, g2, gc⟩ := ih (SsmDataChannel.HandleMsg ext c f).state hc2
      (fun q hq => hf q (List.mem_cons_of_mem f hq))
    refine ⟨k1 + k2, ?_, ?_, ?_⟩
    · rw [handleRun_cons_fst, h1, g1, h2]
      exact flatten_range_add P c.inSeqNum k1 k2
    · rw [handleRun_cons_snd, g2, h2]
      push_cast
      ring
    · rw [handleRun_cons_snd]
      exact gc

/-- The payload environment of the S4 scenario: payloads `0`, `1`, `2` carry
bytes 48, 49, 50. -/
def c2P : Int → List Nat :=
  fun s => if s = 0 then [48] else if s = 1 then [49] else if s = 2 then [50] else []

/-- An `output_stream_data`/`Output` message with the given sequence and
payload. -/
def c2Msg (sq : Int) (pl : List Nat) : AgentMessage :=
  { headerLength := 116, MessageType := OutputStreamDataT, schemaVersion := 1,
    createdDate := some 1700000000000, SequenceNumber := sq, Flags := FlagData,
    messageID := List.range 16, payloadDigest := [], PayloadType := PTOutput,
    payloadLength := 0, Payload := pl }

/-- The S4 frames for sequences 0, 1 and 2. -/
def c2f0 : List Nat := (c2Msg 0 [48]).MarshalBinary.toOption.getD []

/-- The S4 frame for sequence 1. -/
def c2f1 : List Nat := (c2Msg 1 [49]).MarshalBinary.toOption.getD []

/-- The S4 frame for sequence 2. -/
def c2f2 : List Nat := (c2Msg 2 [50]).MarshalBinary.toOption.getD []

/-- A running channel expecting inbound sequence 0 with empty buffers. -/
def c2State : ChannelState :=
  { seqNum := 0, inSeqNum := 0, synSent := true, pausePub := false,
    handshakeCh := some false, outMsgBuf := some (NewMessageBuffer 50),
    inMsgBuf := some (NewMessageBuffer 50), sent := [], now := 1700000000000,
    uuidGen := List.range 16 }

/-- The decoded S4 message of sequence 0. -/
def c2d0 : AgentMessage := (AgentMessage.UnmarshalBinary c2f0).toOption.getD default

/-- The decoded S4 message of sequence 1. -/
def c2d1 : AgentMessage := (AgentMessage.UnmarshalBinary c2f1).toOption.getD default

/-- The decoded S4 message of sequence 2. -/
def c2d2 : AgentMessage := (AgentMessage.UnmarshalBinary c2f2).toOption.getD default

/-- C2: with inbound buffering enabled, processing any prefix of `Output`
frames drawn from a payload environment delivers exactly the contiguous run
of payloads starting at the expected inbound sequence (so from a fresh
channel: payloads 0, 1, 2, ... in strictly increasing contiguous order), the
expected sequence advances by the number delivered, and the invariant is
preserved; in particular (S4) receiving sequences `[2, 1, 0]` delivers
nothing on the first two calls and drains payloads 0, 1, 2 in order on the
third, leaving the expected inbound sequence at 3. -/
theorem C2_reorder_contiguous (ext : ExternalCodecs) (P : Int → List Nat)
    (frames : List (List Nat)) (c : ChannelState) (hc : InvC P c)
    (hf : ∀ f ∈ frames, ∃ m, AgentMessage.UnmarshalBinary f = .ok m ∧
        m.MessageType = OutputStreamDataT ∧ m.PayloadType = PTOutput ∧
        m.Payload = P m.SequenceNumber ∧ 0 ≤ m.SequenceNumber) :
    (∃ k : Nat, (handleRun ext c frames).1
        = ((List.range k).map (fun i : Nat => P (c.inSeqNum + i))).flatten ∧
      (handleRun ext c frames).2.inSeqNum = c.inSeqNum + k ∧
      InvC P (handleRun ext c frames).2) ∧
    (handleRun extNull c2State [c2f2]).1 = [] ∧
    (handleRun extNull c2State [c2f2, c2f1]).1 = [] ∧
    (handleRun extNull c2State [c2f2, c2f1, c2f0]).1 = [48, 49, 50] ∧
    (handleRun extNull c2State [c2f2, c2f1, c2f0]).2.inSeqNum = 3 := by
  refine ⟨handleRun_inv ext P frames c hc hf, ?_, ?_, ?_, ?_⟩ <;> rfl

/-- C2 witness: the theorem applied to the concrete S4 environment, state and
frames. -/
theorem C2_reorder_contiguous_witness :
    ((∃ k : Nat, (handleRun extNull c2State [c2f2, c2f1, c2f0]).1
        = ((List.range k).map (fun i : Nat => c2P (c2State.inSeqNum + i))).flatten ∧
      (handleRun extNull c2State [c2f2, c2f1, c2f0]).2.inSeqNum = c2State.inSeqNum + k ∧
      InvC c2P (handleRun extNull c2State [c2f2, c2f1, c2f0]).2) ∧
    (handleRun extNull c2State [c2f2]).1 = [] ∧
    (handleRun extNull c2State [c2f2, c2f1]).1 = [] ∧
    (handleRun extNull c2State [c2f2, c2f1, c2f0]).1 = [48, 49, 50] ∧
    (handleRun extNull c2State [c2f2, c2f1, c2f0]).2.inSeqNum = 3) :=
  C2_reorder_contiguous extNull c2P [c2f2, c2f1, c2f0] c2State
    ⟨rfl, rfl, rfl, by decide, NewMessageBuffer 50, rfl, GoodBuf_new c2P 0 50⟩
    (by
      intro f hf
      simp only [List.mem_cons, List.not_mem_nil, or_false] at hf
      rcases hf with rfl | rfl | rfl
      · exact ⟨c2d2, rfl, rfl, rfl, rfl, by decide⟩
      · exact ⟨c2d1, rfl, rfl, rfl, rfl, by decide⟩
      · exact ⟨c2d0, rfl, rfl, rfl, rfl, by decide⟩)

end Ssm
